import Mathlib

set_option maxRecDepth 100000

/-!
Verification of the response-parsing and scaffolding heuristics of the
Next.js component generator extension.

The definitions below are a shallow embedding of the JavaScript sources:

* the response parser of `componentGenerator.js` (the Anthropic revision,
  the one wired by `extension.js` / `package.json`): component-name
  extraction, `COMPONENT_NAME` line stripping, fenced-code-block
  extraction, stray-fence removal, default-export appending, placeholder
  implementation synthesis and usage-header injection;
* the scaffold generator of `fileManager.js`: output-directory
  resolution and mock-data file generation.

JavaScript strings are modelled as `List Char`; the regular expressions
in the source are modelled by explicit scanners with the exact
backtracking behaviour of the corresponding JS regexes (leftmost match,
greedy/lazy quantifiers).  JS `\s` is the ECMAScript WhiteSpace and
LineTerminator set.
-/

/-- Character class of the ECMAScript `\s` (WhiteSpace ∪ LineTerminator). -/
def isSpaceJS (c : Char) : Bool :=
  c.toNat = 32 || c.toNat = 9 || c.toNat = 10 || c.toNat = 13 ||
  c.toNat = 11 || c.toNat = 12 || c.toNat = 160 || c.toNat = 5760 ||
  (8192 ≤ c.toNat && c.toNat ≤ 8202) || c.toNat = 8232 || c.toNat = 8233 ||
  c.toNat = 8239 || c.toNat = 8287 || c.toNat = 12288 || c.toNat = 65279

/-- Character class `[A-Z]`. -/
def isUpperAZ (c : Char) : Bool := 65 ≤ c.toNat && c.toNat ≤ 90

/-- Character class `[a-z]`. -/
def isLowerAZ (c : Char) : Bool := 97 ≤ c.toNat && c.toNat ≤ 122

/-- Character class `[0-9]`. -/
def isDigit09 (c : Char) : Bool := 48 ≤ c.toNat && c.toNat ≤ 57

/-- Character class `[a-zA-Z0-9]`. -/
def isAlnumJS (c : Char) : Bool := isUpperAZ c || isLowerAZ c || isDigit09 c

/-- Character class of the ECMAScript `\w`, i.e. `[A-Za-z0-9_]`. -/
def isWordJS (c : Char) : Bool := isAlnumJS c || c.toNat = 95

/-- ASCII letter (what the char classes `[A-Z]` and `[a-z]` match under
the `i` flag without the `u` flag). -/
def isAsciiLetter (c : Char) : Bool := isUpperAZ c || isLowerAZ c

/-- ASCII lower-casing of a character (enough for the ASCII letters the
embedded regexes capture; mirrors JS case canonicalisation there). -/
def lowerAscii (c : Char) : Char :=
  if isUpperAZ c then Char.ofNat (c.toNat + 32) else c

/-- ASCII upper-casing of a character (mirrors
`String.prototype.toUpperCase` on the ASCII letters the parser feeds it). -/
def upperAscii (c : Char) : Char :=
  if isLowerAZ c then Char.ofNat (c.toNat - 32) else c

/-- Drop the literal `p` from the front of `l`; `none` if `l` does not
start with `p`.  Models matching a literal piece of a regex. -/
def stripLit : List Char → List Char → Option (List Char)
  | [], l => some l
  | _ :: _, [] => none
  | p :: ps, c :: cs => if c = p then stripLit ps cs else none

/-- Leftmost-match scanning: try the position matcher `f` at every
position of the list, left to right (JS regex scanning). -/
def scanFirst (f : List Char → Option α) : List Char → Option α
  | [] => f []
  | c :: cs =>
    match f (c :: cs) with
    | some r => some r
    | none => scanFirst f cs

/-- One-shot `String.prototype.replace` with an empty replacement: the
position matcher `f` returns the remainder after the matched span; the
first position where it matches has its span deleted. -/
def replaceFirstBy (f : List Char → Option (List Char)) : List Char → List Char
  | [] =>
    match f [] with
    | some r => r
    | none => []
  | c :: cs =>
    match f (c :: cs) with
    | some r => r
    | none => c :: replaceFirstBy f cs

/-- Substring test: does `p` occur contiguously inside `l`
(JS `String.prototype.includes`)? -/
def containsSeq (p : List Char) : List Char → Bool
  | [] => p.isPrefixOf []
  | c :: cs => p.isPrefixOf (c :: cs) || containsSeq p cs

/-- JS `String.prototype.trim` (trims the `\s` set on both ends). -/
def trimJS (l : List Char) : List Char :=
  ((l.dropWhile isSpaceJS).reverse.dropWhile isSpaceJS).reverse

/-- JS `String.prototype.split('\n')`. -/
def splitOnNL : List Char → List (List Char)
  | [] => [[]]
  | c :: cs =>
    if c = '\n' then [] :: splitOnNL cs
    else
      match splitOnNL cs with
      | h :: t => (c :: h) :: t
      | [] => [[c]]

/-- Case-insensitive literal matching (ASCII folding, as JS `i`-flag
canonicalisation does on the ASCII literals of the embedded regexes);
the pattern `p` is given in lower case. -/
def stripLitCI : List Char → List Char → Option (List Char)
  | [], l => some l
  | _ :: _, [] => none
  | p :: ps, c :: cs => if lowerAscii c = p then stripLitCI ps cs else none

/-! ## Response parser (`componentGenerator.js`, `generateComponent`) -/

/-- Position matcher of `/COMPONENT_NAME:\s*([A-Z][a-zA-Z0-9]*)/`:
the literal, then greedily skipped whitespace, then the captured
PascalCase token (maximal run). -/
def matchCNNameAt (l : List Char) : Option (List Char) :=
  match stripLit ("COMPONENT_NAME:".data) l with
  | none => none
  | some r1 =>
    match r1.dropWhile isSpaceJS with
    | [] => none
    | c :: cs => if isUpperAZ c then some (c :: cs.takeWhile isAlnumJS) else none

/-- `generatedText.match(/COMPONENT_NAME:\s*([A-Z][a-zA-Z0-9]*)/)`,
returning the captured group. -/
def componentNameMatch (l : List Char) : Option (List Char) :=
  scanFirst matchCNNameAt l

/-- Position matcher of the strip pattern
`/COMPONENT_NAME:\s*([A-Z][a-zA-Z0-9]*)\s*\n/`: as `matchCNNameAt`, then
greedy `\s*` that backtracks to the last newline of the following
whitespace run; returns the remainder after the matched span. -/
def matchCNLineAt (l : List Char) : Option (List Char) :=
  match stripLit ("COMPONENT_NAME:".data) l with
  | none => none
  | some r1 =>
    match r1.dropWhile isSpaceJS with
    | [] => none
    | c :: cs =>
      if isUpperAZ c then
        let r3 := cs.dropWhile isAlnumJS
        let w := r3.takeWhile isSpaceJS
        let t := w.reverse.takeWhile (fun d => !(d = '\n'))
        if t.length = w.length then none
        else some (r3.drop (w.length - t.length))
      else none

/-- `generatedText.replace(/COMPONENT_NAME:\s*([A-Z][a-zA-Z0-9]*)\s*\n/, '')`. -/
def cleanedTextOf (l : List Char) : List Char := replaceFirstBy matchCNLineAt l

/-- Lazy capture `([\s\S]*?)` up to the closing fence: the characters
before the first occurrence of three backticks; `none` when no closing
fence follows. -/
def untilFence : List Char → Option (List Char)
  | [] => none
  | c :: cs =>
    match stripLit ("```".data) (c :: cs) with
    | some _ => some []
    | none => (untilFence cs).map (fun cap => c :: cap)

/-- Position matcher of a fenced block pattern such as
`/```tsx\s*([\s\S]*?)```/`: the opening fence and tag, greedy `\s*`,
then the lazy capture up to the closing fence. -/
def matchFenceAt (tag : String) (l : List Char) : Option (List Char) :=
  match stripLit ("```".data ++ tag.data) l with
  | none => none
  | some r1 => untilFence (r1.dropWhile isSpaceJS)

/-- The code-block match cascade of the parser:
`cleanedText.match(tsx) || match(typescript) || match(jsx) || match(js)`. -/
def codeMatchOf (cleaned : List Char) : Option (List Char) :=
  match scanFirst (matchFenceAt "tsx") cleaned with
  | some r => some r
  | none =>
    match scanFirst (matchFenceAt "typescript") cleaned with
    | some r => some r
    | none =>
      match scanFirst (matchFenceAt "jsx") cleaned with
      | some r => some r
      | none => scanFirst (matchFenceAt "js") cleaned

/-- `codeMatch ? codeMatch[1].trim() : cleanedText`. -/
def extractedCodeOf (cleaned : List Char) : List Char :=
  match codeMatchOf cleaned with
  | some cap => trimJS cap
  | none => cleaned

/-- Position matcher of `/```[a-z]*\s*/`: opening backticks, greedy
lower-case tag run, greedy whitespace; returns the remainder. -/
def stripFenceMarkerAt (l : List Char) : Option (List Char) :=
  (stripLit ("```".data) l).map (fun r => (r.dropWhile isLowerAZ).dropWhile isSpaceJS)

/-- Recursion core of the global fence replace, with explicit fuel:
every step strictly shortens the list (`stripFenceMarkerAt_shrinks`),
so fuel equal to the list length always suffices and the fuel guard is
never hit. -/
def removeFenceMarksAux : Nat → List Char → List Char
  | 0, l => l
  | _ + 1, [] => []
  | fuel + 1, c :: cs =>
    match stripFenceMarkerAt (c :: cs) with
    | some r => removeFenceMarksAux fuel r
    | none => c :: removeFenceMarksAux fuel cs

/-- Global replace `componentCode.replace(/```[a-z]*\s*/g, '')`:
left-to-right scan, deleting each match and resuming after it. -/
def removeFenceMarks (l : List Char) : List Char :=
  removeFenceMarksAux l.length l

/-- Position matcher of `/```\s*$/`: closing backticks followed only by
whitespace to the end of the string. -/
def matchEndFenceAt (l : List Char) : Option (List Char) :=
  match stripLit ("```".data) l with
  | none => none
  | some r => if r.all isSpaceJS then some [] else none

/-- `componentCode.replace(/```\s*$/g, '')`. -/
def removeEndFence (l : List Char) : List Char := replaceFirstBy matchEndFenceAt l

/-- Both stray-fence clean-ups, in source order. -/
def defencedOf (l : List Char) : List Char := removeEndFence (removeFenceMarks l)

/-- Tail of the prompt pattern after the article: `\s+` then the
captured word `([A-Z][a-zA-Z0-9]*|[a-z][a-zA-Z0-9]*)` (under the `i`
flag: an ASCII letter then a maximal alphanumeric run), then `\s+` and
the literal `component` (case-insensitive).  Returns the captured word. -/
def matchArticleRest (l : List Char) : Option (List Char) :=
  match l with
  | [] => none
  | c :: cs =>
    if isSpaceJS c then
      match cs.dropWhile isSpaceJS with
      | [] => none
      | d :: ds =>
        if isAsciiLetter d then
          match ds.dropWhile isAlnumJS with
          | [] => none
          | e :: es =>
            if isSpaceJS e then
              match stripLitCI ("component".data) (es.dropWhile isSpaceJS) with
              | some _ => some (d :: ds.takeWhile isAlnumJS)
              | none => none
            else none
        else none
    else none

/-- The verb alternation `(?:create|generate|make)` of the prompt
pattern
`/(?:create|generate|make)\s+(?:a|an)\s+([A-Z][a-zA-Z0-9]*|[a-z][a-zA-Z0-9]*)\s+component/i`. -/
def verbMatch (l : List Char) : Option (List Char) :=
  match stripLitCI ("create".data) l with
  | some r => some r
  | none =>
    match stripLitCI ("generate".data) l with
    | some r => some r
    | none => stripLitCI ("make".data) l

/-- Position matcher continued: after the verb alternative, `\s+`, the
article (`a` tried before `an`), then the rest of the pattern. -/
def matchPromptAt (l : List Char) : Option (List Char) :=
  match verbMatch l with
  | none => none
  | some r1 =>
    match r1 with
    | [] => none
    | c :: cs =>
      if isSpaceJS c then
        match stripLitCI ("a".data) (cs.dropWhile isSpaceJS) with
        | some r3 =>
          match matchArticleRest r3 with
          | some w => some w
          | none =>
            match stripLitCI ("an".data) (cs.dropWhile isSpaceJS) with
            | some r4 => matchArticleRest r4
            | none => none
        | none => none
      else none

/-- `prompt.match(/(?:create|generate|make)\s+(?:a|an)\s+(...)\s+component/i)`,
returning the captured word. -/
def promptComponentMatch (l : List Char) : Option (List Char) :=
  scanFirst matchPromptAt l

/-- `word.charAt(0).toUpperCase() + word.slice(1)`. -/
def pascalizeJS : List Char → List Char
  | [] => []
  | c :: cs => upperAscii c :: cs

/-- The component-name cascade of the parser: the `COMPONENT_NAME` match,
else the prompt match (PascalCased), else the fixed fallback. -/
def parsedNameOf (generatedText prompt : List Char) : List Char :=
  match componentNameMatch generatedText with
  | some n => n
  | none =>
    match promptComponentMatch prompt with
    | some w => pascalizeJS w
    | none => ("GeneratedComponent".data)

/-- The default-export appending step (source lines 152–155):
appended only when `export const <name>` occurs and `export default`
does not. -/
def addDefaultExport (name code : List Char) : List Char :=
  if containsSeq (("export const ".data) ++ name) code &&
      !(containsSeq ("export default".data) code) then
    code ++ ("\n\nexport default ".data) ++ name ++ (";\n".data)
  else code

/-- The six implementation markers checked before synthesising a
placeholder implementation (source lines 159–164). -/
def hasImplMarker (name code : List Char) : Bool :=
  containsSeq (("function ".data) ++ name) code ||
  containsSeq (("const ".data) ++ name) code ||
  containsSeq (("class ".data) ++ name) code ||
  containsSeq (("export function ".data) ++ name) code ||
  containsSeq (("export const ".data) ++ name) code ||
  containsSeq (("export default function ".data) ++ name) code

/-- Lazy capture `([\s\S]*?)` up to the first closing brace; `none`
when no closing brace follows. -/
def untilBrace (l : List Char) : Option (List Char) :=
  if l.any (fun c => c = '\x7d') then some (l.takeWhile (fun c => !(c = '\x7d')))
  else none

/-- Position matcher of the generator's interface pattern
`new RegExp("interface\\s+" + name + "Props\\s*{([\\s\\S]*?)}")`. -/
def matchIfaceGenAt (name : List Char) (l : List Char) : Option (List Char) :=
  match stripLit ("interface".data) l with
  | none => none
  | some r1 =>
    match r1 with
    | [] => none
    | c :: cs =>
      if isSpaceJS c then
        match stripLit (name ++ ("Props".data)) (cs.dropWhile isSpaceJS) with
        | none => none
        | some r3 =>
          match r3.dropWhile isSpaceJS with
          | '\x7b' :: r4 => untilBrace r4
          | _ => none
      else none

/-- Position matcher of the unanchored prop-name pattern `/(\w+)[\?]?:/`
at one position: optional `?`, then a colon, after the current `\w+`
candidate. -/
def colonAfterOpt : List Char → Bool
  | '?' :: ':' :: _ => true
  | ':' :: _ => true
  | _ => false

/-- Backtracking over the greedy `(\w+)` group, longest candidate first;
`revTaken` is the reversed current candidate. -/
def shrinkWordMatch : List Char → List Char → Option (List Char)
  | [], _ => none
  | c :: revRest, rest =>
    if colonAfterOpt rest then some (c :: revRest).reverse
    else shrinkWordMatch revRest (c :: rest)

/-- Position matcher of `/(\w+)[\?]?:/`, returning the captured name. -/
def matchPropNameTokAt (l : List Char) : Option (List Char) :=
  let run := l.takeWhile isWordJS
  if run.isEmpty then none
  else shrinkWordMatch run.reverse (l.drop run.length)

/-- The destructuring list synthesised from the interface body
(source lines 174–184): split on newlines, trim, drop empty and
comment lines, extract each line's prop name, join with `,\n  `. -/
def propsStrOf (content : List Char) : List Char :=
  let ls := (splitOnNL content).map trimJS
  let ls2 := ls.filter (fun l =>
    !(l.isEmpty) && !(("//".data).isPrefixOf l) && !(("/*".data).isPrefixOf l))
  let names := ls2.filterMap (fun l => scanFirst matchPropNameTokAt l)
  List.intercalate (",\n  ".data) names

/-- Pieces of the placeholder template of source lines 187–205, split at
the proof-relevant boundaries; their concatenation below restores the
source's template literal verbatim. -/
def phImport : List Char := ("\nimport React from 'react';\n\nexport const ".data)

/-- Template piece between the two component-name interpolations. -/
def phReactFC : List Char := (": React.FC<".data)

/-- Template piece closing the props type reference. -/
def phPropsRef : List Char := ("Props> ".data)

/-- Template piece opening the destructured parameter list. -/
def phDestructOpen : List Char := ("= (\x7b\n  ".data)

/-- Template piece closing the destructured parameter list. -/
def phDestructClose : List Char := ("\n\x7d)".data)

/-- The JSX body of the placeholder (renders title, description,
ctaText and ctaLink). -/
def phBody : List Char := (" => \x7b\n  return (\n    <div className=\"rounded-lg shadow-md p-6 bg-white\">\n      \x7b/* Implement your component UI here using the props */\x7d\n      \x7btitle && <h2 className=\"text-xl font-bold mb-2\">\x7btitle\x7d</h2>\x7d\n      \x7bdescription && <p className=\"text-gray-700 mb-4\">\x7bdescription\x7d</p>\x7d\n      \x7bctaText && ctaLink && (\n        <a \n          href=\x7bctaLink\x7d \n          className=\"inline-block px-4 py-2 bg-blue-600 text-white rounded hover:bg-blue-700 transition-colors\"\n        >\n          \x7bctaText\x7d\n        </a>\n      )\x7d\n    </div>\n  );\n\x7d;\n\n".data)

/-- Template piece introducing the appended default export. -/
def phExportDefault : List Char := ("export default ".data)

/-- Template piece ending the appended default export. -/
def phEnd : List Char := (";\n".data)

/-- The synthesised placeholder implementation appended when only a
props interface was returned (source lines 187–205), verbatim. -/
def placeholderImpl (name propsStr : List Char) : List Char :=
  phImport ++ name ++ phReactFC ++ name ++ phPropsRef ++
  (phDestructOpen ++ propsStr ++ phDestructClose) ++ phBody ++
  (phExportDefault ++ name ++ phEnd)

/-- The placeholder synthesis step (source lines 157–207). -/
def ensureImplementation (name code : List Char) : List Char :=
  if hasImplMarker name code then code
  else if containsSeq ((("interface ".data) ++ name) ++ ("Props".data)) code then
    let propsStr :=
      match scanFirst (matchIfaceGenAt name) code with
      | some content => propsStrOf content
      | none => []
    code ++ placeholderImpl name propsStr
  else code

/-- The generated usage-comment header (source lines 211–227), verbatim. -/
def usageHeaderFor (name : List Char) : List Char :=
  ("/*\n * ".data) ++ name ++
  (" - Component generated from user description\n * \n * USAGE:\n * import \x7b ".data) ++
  name ++ (" \x7d from '@/components/".data) ++ name ++
  ("';\n * \n * <".data) ++ name ++
  (" prop1=\"value\" prop2=\x7bvalue\x7d />\n * \n * PROPS:\n * Check the ".data) ++
  name ++
  ("Props interface below for available props\n * \n * CUSTOMIZATION:\n * - Modify the component props interface to add or remove properties\n * - Adjust the Tailwind CSS classes to change the styling\n * - Add additional functionality as needed\n */\n".data)

/-- The header-presence test of the source: the code contains both a
block-comment opener and the token `USAGE:`. -/
def hasUsageHeader (code : List Char) : Bool :=
  containsSeq ("/*".data) code && containsSeq ("USAGE:".data) code

/-- The header-injection step (source lines 209–229). -/
def addUsageHeader (name code : List Char) : List Char :=
  if hasUsageHeader code then code else usageHeaderFor name ++ code

/-- The parsed result returned to the caller. -/
structure GenerationResult where
  componentName : String
  componentCode : String
  fullResponse : String
deriving DecidableEq

/-- The whole post-response parsing pipeline of `generateComponent`
(source lines 114–235), as a function of the raw model text and the
originating description. -/
def parseResponse (generatedText prompt : String) : GenerationResult :=
  let name := parsedNameOf generatedText.data prompt.data
  let cleaned := cleanedTextOf generatedText.data
  let code1 := extractedCodeOf cleaned
  let code2 := defencedOf code1
  let code3 := addDefaultExport name code2
  let code4 := ensureImplementation name code3
  let code5 := addUsageHeader name code4
  ⟨String.mk name, String.mk code5, generatedText⟩

/-! ## Placement resolver (`fileManager.js`, `createComponentFile` lines 20–64) -/

/-- `path.join(root, s)` for the flat path fragments used here. -/
def pjoin (root s : String) : String := root ++ "/" ++ s

/-- The three conventional directories probed, in source order. -/
def conventionalDirs (root : String) : List String :=
  [pjoin root "components", pjoin (pjoin root "src") "components",
   pjoin (pjoin root "app") "components"]

/-- The output-directory resolution of `createComponentFile`:
`outputFolder` is the explicit folder (`none` for a missing/empty one),
`dirExists` abstracts `fs.existsSync`, `userSel` the folder-picker
result (`none` for a dismissed dialog, otherwise the selected list).
Returns the chosen components directory and the list of directories
created with `fs.mkdirSync`. -/
def resolveComponentsDir (root : String) (outputFolder : Option String)
    (dirExists : String → Bool) (userSel : Option (List String)) :
    String × List String :=
  match outputFolder with
  | some f => (f, if dirExists f then [] else [f])
  | none =>
    match (conventionalDirs root).find? dirExists with
    | some d => (d, [])
    | none =>
      let fallback :=
        let d := pjoin root "components"
        (d, if dirExists d then [] else [d])
      match userSel with
      | none => fallback
      | some [] => fallback
      | some (s :: _) => (s, [])

/-! ## Mock-data generator (`fileManager.js`, `generateMockDataFile`) -/

/-- Position matcher of `/interface\s+(\w+Props)\s*{([^}]*)}/`: after
`interface` and `\s+`, the greedy `(\w+Props)` group can only consume a
maximal word run that ends in `Props` (backtracking into the run cannot
succeed because a shorter `\w+` leaves a word character where `\s*{`
must match); then `\s*`, `{`, and the greedy `([^}]*)` capture up to the
closing brace.  Returns (interface name, body). -/
def matchIfaceFMAt (l : List Char) : Option (List Char × List Char) :=
  match stripLit ("interface".data) l with
  | none => none
  | some r1 =>
    match r1 with
    | [] => none
    | c :: cs =>
      if isSpaceJS c then
        let r2 := cs.dropWhile isSpaceJS
        let run := r2.takeWhile isWordJS
        if 6 ≤ run.length && ("Props".data).isSuffixOf run then
          match (r2.drop run.length).dropWhile isSpaceJS with
          | '\x7b' :: r4 =>
            if r4.any (fun d => d = '\x7d') then
              some (run, r4.takeWhile (fun d => !(d = '\x7d')))
            else none
          | _ => none
        else none
      else none

/-- The kinds of mock values the generator assigns.  Arrays are the two
fixed literals of the source; numbers carry their JS rendering. -/
inductive MVal where
  | str : String → MVal
  | num : String → MVal
  | boolT : MVal
  | arrObjs : MVal
  | arrStrs : MVal
deriving DecidableEq

/-- JS truthiness of the values above (used by `!mockData.onClick` and
`!mockData.theme`). -/
def mvalTruthy : MVal → Bool
  | .str s => !(s.isEmpty)
  | .num n => !(n = "0")
  | _ => true

/-- JS object property assignment `obj[k] = v`: overwrite in place if
the key exists, else append (insertion order preserved). -/
def insertAssign (es : List (String × MVal)) (k : String) (v : MVal) :
    List (String × MVal) :=
  if es.any (fun e => e.1 = k) then
    es.map (fun e => if e.1 = k then (k, v) else e)
  else es ++ [(k, v)]

/-- The anchored prop-line pattern `/^\s*(\w+)(\?)?(\s*:\s*([^;]+))?/`:
returns the prop name and the trimmed declared type (empty when the
optional type group fails or captures only whitespace, exactly as the
source's `propMatch[4] ? propMatch[4].trim() : ''`). -/
def linePropParse (l : List Char) : Option (List Char × List Char) :=
  let r1 := l.dropWhile isSpaceJS
  let run := r1.takeWhile isWordJS
  if run.isEmpty then none
  else
    let r2 := r1.drop run.length
    let r3 := if r2.head? = some '?' then r2.tail else r2
    some (run, lineTypeOf r3)
where
  /-- The optional `(\s*:\s*([^;]+))?` group, trimmed. -/
  lineTypeOf (r3 : List Char) : List Char :=
    match r3.dropWhile isSpaceJS with
    | ':' :: t => trimJS ((t.dropWhile isSpaceJS).takeWhile (fun c => !(c = ';')))
    | _ => []

/-- JS `String.prototype.split('|')`. -/
def splitOnBar : List Char → List (List Char)
  | [] => [[]]
  | c :: cs =>
    if c = '|' then [] :: splitOnBar cs
    else
      match splitOnBar cs with
      | h :: t => (c :: h) :: t
      | [] => [[c]]

/-- The name/type keyword heuristics assigning one mock value
(source lines 204–265); `none` when the declared type matches no branch. -/
def mockValueFor (componentName propName propType : List Char) : Option MVal :=
  if containsSeq ("string".data) propType || propType.isEmpty then
    some (.str (String.mk (
      if containsSeq ("image".data) propName || containsSeq ("img".data) propName ||
          containsSeq ("src".data) propName || containsSeq ("avatar".data) propName ||
          containsSeq ("photo".data) propName then
        ("https://via.placeholder.com/400x300".data)
      else if containsSeq ("title".data) propName then
        componentName ++ (" Title".data)
      else if containsSeq ("description".data) propName ||
          containsSeq ("content".data) propName ||
          containsSeq ("text".data) propName then
        ("This is a sample description for the component. It provides context about what this component does.".data)
      else if containsSeq ("name".data) propName then ("Sample Name".data)
      else if containsSeq ("email".data) propName then ("user@example.com".data)
      else if containsSeq ("url".data) propName || containsSeq ("link".data) propName then
        ("https://example.com".data)
      else if containsSeq ("button".data) propName || containsSeq ("cta".data) propName ||
          containsSeq ("action".data) propName then
        ("Click Me".data)
      else ("Sample ".data) ++ propName)))
  else if containsSeq ("number".data) propType then
    some (.num (
      if containsSeq ("id".data) propName then "1"
      else if containsSeq ("count".data) propName ||
          containsSeq ("quantity".data) propName then "5"
      else if containsSeq ("price".data) propName ||
          containsSeq ("cost".data) propName then "99.99"
      else "42"))
  else if containsSeq ("boolean".data) propType then some .boolT
  else if containsSeq ("array".data) propType || containsSeq ("[]".data) propType then
    some (if containsSeq ("items".data) propName || containsSeq ("list".data) propName ||
        containsSeq ("data".data) propName then .arrObjs else .arrStrs)
  else if containsSeq ("function".data) propType || containsSeq ("=>".data) propType ||
      containsSeq ("void".data) propType then
    some (.str "() => console.log(\"Mock function called\")")
  else if containsSeq ("|".data) propType then
    let options := (splitOnBar propType).map trimJS
    match options.find? (fun o => ("'".data).isPrefixOf o || ("\"".data).isPrefixOf o) with
    | some lit =>
      some (.str (String.mk (lit.filter (fun c => !(c = '\'') && !(c = '"')))))
    | none =>
      if options.contains ("string".data) then
        some (.str (String.mk (("Sample ".data) ++ propName)))
      else if options.contains ("number".data) then some (.num "42")
      else if options.contains ("boolean".data) then some .boolT
      else
        match options with
        | o :: _ => some (.str (String.mk o))
        | [] => none
  else none

/-- One step of the second pass over the interface's lines: parse the
line, assign its mock value (source lines 193–267). -/
def mockStep (componentName : List Char) (es : List (String × MVal))
    (line : List Char) : List (String × MVal) :=
  match linePropParse line with
  | some (n, ty) =>
    match mockValueFor componentName n ty with
    | some v => insertAssign es (String.mk n) v
    | none => es
  | none => es

/-- The second pass over the interface's lines, assigning mock values in
line order. -/
def mockEntriesOf (componentName : List Char) (propLines : List (List Char)) :
    List (String × MVal) :=
  propLines.foldl (mockStep componentName) []

/-- The button special case (source lines 270–272). -/
def withOnClick (componentName : List Char) (es : List (String × MVal)) :
    List (String × MVal) :=
  if containsSeq ("button".data) (componentName.map lowerAscii) &&
      !(es.any (fun e => e.1 = "onClick" && mvalTruthy e.2)) then
    insertAssign es "onClick" (.str "() => console.log(\"Button clicked\")")
  else es

/-- The card/theme special case (source lines 274–276). -/
def withTheme (componentName propsContent : List Char)
    (es : List (String × MVal)) : List (String × MVal) :=
  if containsSeq ("card".data) (componentName.map lowerAscii) &&
      !(es.any (fun e => e.1 = "theme" && mvalTruthy e.2)) &&
      containsSeq ("theme".data) propsContent then
    insertAssign es "theme" (.str "light")
  else es

/-- Both special cases, in source order. -/
def withSpecials (componentName propsContent : List Char)
    (es : List (String × MVal)) : List (String × MVal) :=
  withTheme componentName propsContent (withOnClick componentName es)

/-- JSON string escaping as `JSON.stringify` performs it on the string
values that occur here. -/
def jsonEscape (s : String) : String :=
  String.mk (s.data.flatMap (fun c =>
    if c = '"' then ('\\' :: ['"'])
    else if c = '\\' then ('\\' :: ['\\'])
    else if c = '\n' then ('\\' :: ['n'])
    else if c = '\t' then ('\\' :: ['t'])
    else if c = '\r' then ('\\' :: ['r'])
    else [c]))

/-- Rendering of one mock value inside the top-level object of
`JSON.stringify(mockData, null, 2)` (nesting depth 1).  The two array
values are fixed literals in the source; their renderings are spelled
out. -/
def renderMVal : MVal → String
  | .str s => "\"" ++ jsonEscape s ++ "\""
  | .num n => n
  | .boolT => "true"
  | .arrStrs => "[\n    \"Item 1\",\n    \"Item 2\",\n    \"Item 3\"\n  ]"
  | .arrObjs => "[\n    \x7b\n      \"id\": 1,\n      \"name\": \"Item 1\",\n      \"description\": \"Description for item 1\"\n    \x7d,\n    \x7b\n      \"id\": 2,\n      \"name\": \"Item 2\",\n      \"description\": \"Description for item 2\"\n    \x7d,\n    \x7b\n      \"id\": 3,\n      \"name\": \"Item 3\",\n      \"description\": \"Description for item 3\"\n    \x7d\n  ]"

/-- `JSON.stringify(mockData, null, 2)` over the assembled entries. -/
def jsonStringify2 (es : List (String × MVal)) : String :=
  match es with
  | [] => "\x7b\x7d"
  | _ =>
    "\x7b\n" ++
    String.intercalate ",\n"
      (es.map (fun e => "  \"" ++ jsonEscape e.1 ++ "\": " ++ renderMVal e.2)) ++
    "\n\x7d"

/-- The textual assembly of the mock-data file from the finished entry
list (source lines 279–296). -/
def mockRender (componentName propsInterface : List Char)
    (entries2 : List (String × MVal)) : String :=
  String.intercalate "\n"
    ["import \x7b " ++ String.mk propsInterface ++ " \x7d from './index';",
     "",
     "/**",
     " * Mock data for " ++ String.mk componentName ++ " component",
     " */",
     "export const mock" ++ String.mk componentName ++ "Data: " ++
       String.mk propsInterface ++ " = " ++ jsonStringify2 entries2 ++ ";",
     "",
     "/**",
     " * Alternative mock data for " ++ String.mk componentName ++ " component",
     " */",
     "export const alternative" ++ String.mk componentName ++ "Data: " ++
       String.mk propsInterface ++ " = \x7b",
     "  ...mock" ++ String.mk componentName ++ "Data,",
     "  // Add or override properties for the alternative version",
     "\x7d;"]

/-- The mock-data file contents given the component name, the interface
name and the interface body (source lines 169–296). -/
def mockFileFromContent (componentName propsInterface propsContent : List Char) :
    String :=
  mockRender componentName propsInterface
    (withSpecials componentName propsContent
      (mockEntriesOf componentName (splitOnNL propsContent)))

/-- `generateMockDataFile(componentName, componentCode)` (source lines
163–297): locate the props interface, fall back to `<name>Props` with an
empty body. -/
def generateMockDataFile (componentName componentCode : String) : String :=
  match scanFirst matchIfaceFMAt componentCode.data with
  | some (iname, content) => mockFileFromContent componentName.data iname content
  | none =>
    mockFileFromContent componentName.data
      (componentName.data ++ ("Props".data)) []

/-- The anchored pattern `/^\s*(\w+)(\s*:|\s*;)/` of the first
(required-prop) pass (source line 179). -/
def reqMatchA (l : List Char) : Option (List Char) :=
  let r1 := l.dropWhile isSpaceJS
  let run := r1.takeWhile isWordJS
  if run.isEmpty then none
  else
    match (r1.drop run.length).dropWhile isSpaceJS with
    | ':' :: _ => some run
    | ';' :: _ => some run
    | _ => none

/-- Matchability of `[^;]+\s+required` somewhere in `t` (the tail of the
pattern of source line 181): some non-empty `;`-free stretch, then
whitespace, then the literal. -/
def existsReqSplit (t : List Char) : Bool :=
  (List.range (t.length + 1)).any (fun j =>
    (List.range (t.length + 1)).any (fun k =>
      decide (1 ≤ j) && decide (j < k) &&
      ("required".data).isPrefixOf (t.drop k) &&
      !(((t.take k).drop j).isEmpty) && ((t.take k).drop j).all isSpaceJS &&
      !((t.take j).any (fun c => c = ';'))))

/-- The anchored pattern `/^\s*(\w+)(\?)?(\s*:\s*[^;]+\s+required)/`
(source line 181). -/
def reqMatchB (l : List Char) : Option (List Char) :=
  let r1 := l.dropWhile isSpaceJS
  let run := r1.takeWhile isWordJS
  if run.isEmpty then none
  else
    let r2 := r1.drop run.length
    let r3 := match r2 with
      | '?' :: t => t
      | _ => r2
    match r3.dropWhile isSpaceJS with
    | ':' :: t => if existsReqSplit t then some run else none
    | _ => none

/-- Insertion into the `Set` of required props (dedup, insertion order). -/
def insertOnce (xs : List (List Char)) (x : List Char) : List (List Char) :=
  if xs.contains x then xs else xs ++ [x]

/-- The first pass of `generateMockDataFile` (source lines 173–190): the
set of required props.  The source computes this set and never reads it
again; it is embedded here so that fact can be exhibited. -/
def requiredPropsOf (propLines : List (List Char)) : List (List Char) :=
  propLines.foldl (fun s line =>
    let s1 :=
      match reqMatchA line with
      | some run =>
        if !(containsSeq ("?:".data) line) && !(containsSeq ("? :".data) line) then
          insertOnce s run
        else s
      | none => s
    match reqMatchB line with
    | some run => insertOnce s1 run
    | none => s1) []

/-! ## Spec-side definitions

The definitions in this section follow the wording of the specification
(not the source); they exist to be compared with the source-derived
definitions above. -/

/-- A non-empty PascalCase token `[A-Z][a-zA-Z0-9]*` (the shape the spec
asserts for every parsed component name). -/
def isPascalToken (s : String) : Bool :=
  match s.data with
  | [] => false
  | c :: cs => isUpperAZ c && cs.all isAlnumJS

/-- Modelled from the spec: the first fenced code block, in text order,
whose language tag is in the recognized set — at each position the
recognized tags are tried.  This is the spec's reading of step 3 of the
parser, to be compared with `codeMatchOf`. -/
def firstFencedBlockSpec (l : List Char) : Option (List Char) :=
  scanFirst (fun s =>
    match matchFenceAt "tsx" s with
    | some r => some r
    | none =>
      match matchFenceAt "typescript" s with
      | some r => some r
      | none =>
        match matchFenceAt "jsx" s with
        | some r => some r
        | none => matchFenceAt "js" s) l

/-- The body lines of the generated alternative mock-data set: the lines
strictly between the spread line and the closing brace. -/
def altOverrideLines (name out : String) : List String :=
  let ls := (splitOnNL out.data).map String.mk
  ((ls.dropWhile (fun l => !(l = "  ...mock" ++ name ++ "Data,"))).drop 1).takeWhile
    (fun l => !(l = "\x7d;"))

/-- Whether a line of the alternative set overrides a field: not a
comment, not the spread, and carrying a `key: value` colon. -/
def isOverrideLine (l : String) : Bool :=
  let t := l.data.dropWhile isSpaceJS
  !(("//".data).isPrefixOf t) && !(("...".data).isPrefixOf t) &&
    l.data.any (fun c => c = ':')

/-- One prop line of a props interface in structured form: leading
whitespace, the prop name, the optionality marker, and the rest of the
line (type annotation etc.). -/
structure PLine where
  ws : List Char
  nm : List Char
  opt : Bool
  tl : List Char

/-- The rendered text of a structured prop line. -/
def renderPLine (p : PLine) : List Char :=
  p.ws ++ p.nm ++ (if p.opt then ['?'] else []) ++ p.tl

/-- Well-formedness of a structured prop line: the leading run is
non-newline whitespace, the name a non-empty word, the tail starts
with neither a word character nor `?`, and the tail has no newline (so
the rendered text is one line and the name run is maximal). -/
def plineOK (p : PLine) : Bool :=
  p.ws.all (fun c => isSpaceJS c && !(c = '\n')) &&
  !(p.nm.isEmpty) && p.nm.all isWordJS &&
  (match p.tl.head? with
   | some c => !(isWordJS c) && !(c = '?')
   | none => true) &&
  !(p.tl.any (fun c => c = '\n'))

/-- Two structured prop lines that agree except possibly on the
optionality marker. -/
def sameButOpt (p q : PLine) : Prop := p.ws = q.ws ∧ p.nm = q.nm ∧ p.tl = q.tl

/-- Newline join of a list of lines (inverse of `splitOnNL` on
newline-free lines). -/
def joinNL : List (List Char) → List Char
  | [] => []
  | [x] => x
  | x :: y :: t => x ++ '\n' :: joinNL (y :: t)

/-- The interface body rendered from structured prop lines. -/
def renderPLines (ps : List PLine) : List Char :=
  joinNL (ps.map renderPLine)

/-! ## General lemmas about the string model -/

theorem stripLit_length {p l r : List Char} (h : stripLit p l = some r) :
    l.length = p.length + r.length := by
  induction p generalizing l with
  | nil => cases l <;> simp [stripLit] at h <;> simp [h]
  | cons a ps ih =>
    cases l with
    | nil => simp [stripLit] at h
    | cons c cs =>
      simp only [stripLit] at h
      split at h
      · have := ih h
        simp [this]
        omega
      · exact absurd h (by simp)

theorem stripFenceMarkerAt_shrinks {l r : List Char}
    (h : stripFenceMarkerAt l = some r) : r.length < l.length := by
  simp only [stripFenceMarkerAt, Option.map_eq_some'] at h
  obtain ⟨r1, h1, h2⟩ := h
  have hl := stripLit_length h1
  have d1 : (r1.dropWhile isLowerAZ).length ≤ r1.length := by
    simpa using List.Sublist.length_le (List.dropWhile_sublist _)
  have d2 : ((r1.dropWhile isLowerAZ).dropWhile isSpaceJS).length ≤
      (r1.dropWhile isLowerAZ).length := by
    simpa using List.Sublist.length_le (List.dropWhile_sublist _)
  subst h2
  simp [hl]
  omega

theorem containsSeq_iff {p l : List Char} : containsSeq p l = true ↔ p <:+: l := by
  induction l with
  | nil =>
    simp [containsSeq, List.isPrefixOf_iff_prefix, List.prefix_nil, List.infix_nil]
  | cons c cs ih =>
    simp [containsSeq, List.isPrefixOf_iff_prefix, List.infix_cons_iff, ih]

theorem prefix_of_append_cons {p x y : List Char} {c : Char} (hc : c ∉ p)
    (h : p <+: x ++ c :: y) : p <+: x := by
  induction p generalizing x with
  | nil => simp
  | cons a p' ih =>
    cases x with
    | nil =>
      rcases List.cons_prefix_cons.mp h with ⟨rfl, -⟩
      exact absurd (List.mem_cons_self _ _) hc
    | cons b x' =>
      rw [List.cons_append] at h
      rcases List.cons_prefix_cons.mp h with ⟨rfl, hp⟩
      have := ih (fun hm => hc (List.mem_cons_of_mem _ hm)) hp
      exact List.cons_prefix_cons.mpr ⟨rfl, this⟩

theorem infix_append_cons_iff {p x y : List Char} {c : Char} (hc : c ∉ p) :
    p <:+: x ++ c :: y ↔ p <:+: x ∨ p <:+: y := by
  constructor
  · intro h
    induction x with
    | nil =>
      rw [List.nil_append] at h
      rcases List.infix_cons_iff.mp h with h1 | h2
      · cases p with
        | nil => exact Or.inl List.nil_infix
        | cons a p' =>
          rcases List.cons_prefix_cons.mp h1 with ⟨rfl, -⟩
          exact absurd (List.mem_cons_self _ _) hc
      · exact Or.inr h2
    | cons b x' ih =>
      rw [List.cons_append] at h
      rcases List.infix_cons_iff.mp h with h1 | h2
      · left
        exact (prefix_of_append_cons hc h1).isInfix
      · rcases ih h2 with h3 | h3
        · exact Or.inl (List.infix_cons h3)
        · exact Or.inr h3
  · rintro (h | h)
    · exact h.trans (List.prefix_append x (c :: y)).isInfix
    · exact h.trans (((List.suffix_cons c y).trans (List.suffix_append x (c :: y))).isInfix)

theorem infix_append_head {p x y : List Char}
    (hy : ∀ c, y.head? = some c → c ∉ p) (hp : p ≠ []) :
    (p <:+: x ++ y ↔ p <:+: x ∨ p <:+: y) := by
  cases y with
  | nil =>
    rw [List.append_nil]
    exact ⟨fun h => Or.inl h, fun h => h.elim id (fun h2 => absurd (List.infix_nil.mp h2) hp)⟩
  | cons b y' =>
    have hb : b ∉ p := hy b rfl
    rw [infix_append_cons_iff hb]
    constructor
    · rintro (h | h)
      · exact Or.inl h
      · exact Or.inr (List.infix_cons h)
    · rintro (h | h)
      · exact Or.inl h
      · rcases (List.nil_append (b :: y') ▸ infix_append_cons_iff (x := []) hb).mp h with h2 | h2
        · exact absurd (List.infix_nil.mp h2) hp
        · exact Or.inr h2

theorem dropWhile_append_all {p : Char → Bool} {x l : List Char}
    (hx : ∀ c ∈ x, p c = true) :
    List.dropWhile p (x ++ l) = List.dropWhile p l := by
  induction x with
  | nil => rfl
  | cons c cs ih =>
    rw [List.cons_append, List.dropWhile_cons, if_pos (hx c (List.mem_cons_self c cs))]
    exact ih (fun d hd => hx d (List.mem_cons_of_mem _ hd))

theorem dropWhile_cons_neg {p : Char → Bool} {c : Char} {l : List Char}
    (hc : p c = false) : List.dropWhile p (c :: l) = c :: l := by
  rw [List.dropWhile_cons, if_neg (by simp [hc])]

theorem takeWhile_cons_neg {p : Char → Bool} {c : Char} {l : List Char}
    (hc : p c = false) : List.takeWhile p (c :: l) = [] := by
  rw [List.takeWhile_cons, if_neg (by simp [hc])]

theorem takeWhile_append_all {p : Char → Bool} {x l : List Char}
    (hx : ∀ c ∈ x, p c = true) :
    List.takeWhile p (x ++ l) = x ++ List.takeWhile p l :=
  List.takeWhile_append_of_pos hx

theorem stripLit_self_append (p t : List Char) : stripLit p (p ++ t) = some t := by
  induction p with
  | nil => rfl
  | cons c cs ih => simp [stripLit, ih]

theorem stripLit_eq_some {p l r : List Char} (h : stripLit p l = some r) :
    l = p ++ r := by
  induction p generalizing l with
  | nil => cases l <;> simp_all [stripLit]
  | cons c cs ih =>
    cases l with
    | nil => simp [stripLit] at h
    | cons a l' =>
      simp only [stripLit] at h
      split at h
      · rename_i ha
        subst ha
        simp [ih h]
      · exact absurd h (by simp)

theorem scanFirst_eq_some {f : List Char → Option α} {l : List Char} {v : α}
    (h : scanFirst f l = some v) : ∃ s, s <:+ l ∧ f s = some v := by
  induction l with
  | nil => exact ⟨[], List.nil_suffix, h⟩
  | cons c cs ih =>
    simp only [scanFirst] at h
    split at h
    · rename_i r hr
      cases h
      exact ⟨c :: cs, List.suffix_refl _, hr⟩
    · obtain ⟨s, hs, hf⟩ := ih h
      exact ⟨s, hs.trans (List.suffix_cons c cs), hf⟩

theorem isSpaceJS_iff {c : Char} : isSpaceJS c = true ↔
    (c.toNat = 32 ∨ c.toNat = 9 ∨ c.toNat = 10 ∨ c.toNat = 13 ∨ c.toNat = 11 ∨
     c.toNat = 12 ∨ c.toNat = 160 ∨ c.toNat = 5760 ∨
     (8192 ≤ c.toNat ∧ c.toNat ≤ 8202) ∨ c.toNat = 8232 ∨ c.toNat = 8233 ∨
     c.toNat = 8239 ∨ c.toNat = 8287 ∨ c.toNat = 12288 ∨ c.toNat = 65279) := by
  simp [isSpaceJS, or_assoc]

theorem isWordJS_iff {c : Char} : isWordJS c = true ↔
    ((65 ≤ c.toNat ∧ c.toNat ≤ 90) ∨ (97 ≤ c.toNat ∧ c.toNat ≤ 122) ∨
     (48 ≤ c.toNat ∧ c.toNat ≤ 57) ∨ c.toNat = 95) := by
  simp [isWordJS, isAlnumJS, isUpperAZ, isLowerAZ, isDigit09, or_assoc]

theorem isAlnumJS_iff {c : Char} : isAlnumJS c = true ↔
    ((65 ≤ c.toNat ∧ c.toNat ≤ 90) ∨ (97 ≤ c.toNat ∧ c.toNat ≤ 122) ∨
     (48 ≤ c.toNat ∧ c.toNat ≤ 57)) := by
  simp [isAlnumJS, isUpperAZ, isLowerAZ, isDigit09, or_assoc]

theorem space_false_of_word {c : Char} (h : isWordJS c = true) :
    isSpaceJS c = false := by
  cases hs : isSpaceJS c
  · rfl
  · exfalso
    have h1 := isSpaceJS_iff.mp hs
    have h2 := isWordJS_iff.mp h
    omega

theorem space_false_of_alnum {c : Char} (h : isAlnumJS c = true) :
    isSpaceJS c = false := by
  refine space_false_of_word ?_
  rw [isWordJS_iff]
  exact Or.elim (isAlnumJS_iff.mp h) Or.inl (fun h2 => Or.inr (Or.elim h2 Or.inl
    (fun h3 => Or.inr (Or.inl h3))))

theorem alnum_false_of_space {c : Char} (h : isSpaceJS c = true) :
    isAlnumJS c = false := by
  cases ha : isAlnumJS c
  · rfl
  · exfalso
    have h1 := isSpaceJS_iff.mp h
    have h2 := isAlnumJS_iff.mp ha
    omega

theorem word_false_of_space {c : Char} (h : isSpaceJS c = true) :
    isWordJS c = false := by
  cases ha : isWordJS c
  · rfl
  · exfalso
    have h1 := isSpaceJS_iff.mp h
    have h2 := isWordJS_iff.mp ha
    omega

theorem space_false_of_upper {c : Char} (h : isUpperAZ c = true) :
    isSpaceJS c = false := by
  refine space_false_of_alnum ?_
  simp [isAlnumJS, h]

theorem alnum_of_upper {c : Char} (h : isUpperAZ c = true) :
    isAlnumJS c = true := by
  simp [isAlnumJS, h]

theorem upperAscii_upper {c : Char} (h : isAsciiLetter c = true) :
    isUpperAZ (upperAscii c) = true := by
  simp only [isAsciiLetter, Bool.or_eq_true] at h
  rcases h with h | h
  · have : isLowerAZ c = false := by
      cases hl : isLowerAZ c
      · rfl
      · exfalso
        simp only [isUpperAZ, Bool.and_eq_true, decide_eq_true_eq] at h
        simp only [isLowerAZ, Bool.and_eq_true, decide_eq_true_eq] at hl
        omega
    unfold upperAscii
    rw [this]
    simpa using h
  · unfold upperAscii
    rw [if_pos h]
    simp only [isLowerAZ, Bool.and_eq_true, decide_eq_true_eq] at h
    obtain ⟨h1, h2⟩ := h
    obtain ⟨n, hn, h1, h2⟩ : ∃ n, c.toNat = n ∧ 97 ≤ n ∧ n ≤ 122 :=
      ⟨c.toNat, rfl, h1, h2⟩
    rw [hn]
    interval_cases n <;> decide

/-! ## Claim theorems -/

/-- C1.  The parsed component name is derived by the three-stage
cascade: the first `COMPONENT_NAME: <PascalCaseToken>` match of the
response wins; otherwise a `create/generate/make a <name> component`
match (case-insensitive) of the description, PascalCased, wins;
otherwise the name is the fixed fallback `GeneratedComponent`. -/
theorem c1_name_cascade (r d : List Char) :
    (∀ n, componentNameMatch r = some n → parsedNameOf r d = n) ∧
    (componentNameMatch r = none → ∀ w, promptComponentMatch d = some w →
      parsedNameOf r d = pascalizeJS w) ∧
    (componentNameMatch r = none → promptComponentMatch d = none →
      parsedNameOf r d = ("GeneratedComponent".data)) := by
  refine ⟨?_, ?_, ?_⟩
  · intro n hn
    simp [parsedNameOf, hn]
  · intro h1 w h2
    simp [parsedNameOf, h1, h2]
  · intro h1 h2
    simp [parsedNameOf, h1, h2]

theorem c1_name_cascade_witness :
    (componentNameMatch ("COMPONENT_NAME: Foo\ncode".data) = some ("Foo".data) ∧
      parsedNameOf ("COMPONENT_NAME: Foo\ncode".data) ("whatever".data) =
        ("Foo".data)) ∧
    (componentNameMatch ("no marker here".data) = none ∧
      promptComponentMatch ("Create a widget component".data) =
        some ("widget".data) ∧
      parsedNameOf ("no marker here".data) ("Create a widget component".data) =
        ("Widget".data)) ∧
    (componentNameMatch ("no marker here".data) = none ∧
      promptComponentMatch ("hello".data) = none ∧
      parsedNameOf ("no marker here".data) ("hello".data) =
        ("GeneratedComponent".data)) := by
  refine ⟨⟨by decide, ?_⟩, ⟨by decide, by decide, ?_⟩, ⟨by decide, by decide, ?_⟩⟩
  · exact (c1_name_cascade _ _).1 _ (by decide)
  · have h := (c1_name_cascade ("no marker here".data)
      ("Create a widget component".data)).2.1 (by decide) ("widget".data) (by decide)
    exact h.trans (by decide)
  · exact (c1_name_cascade _ _).2.2 (by decide) (by decide)

theorem containsSeq_append_left {p x : List Char} (y : List Char)
    (h : containsSeq p x = true) : containsSeq p (x ++ y) = true := by
  rw [containsSeq_iff] at h ⊢
  exact h.trans (List.prefix_append x y).isInfix

theorem containsSeq_append_right {p : List Char} (x : List Char) {y : List Char}
    (h : containsSeq p y = true) : containsSeq p (x ++ y) = true := by
  rw [containsSeq_iff] at h ⊢
  exact h.trans (List.suffix_append x y).isInfix

theorem containsSeq_ne_nil {p l : List Char} (hp : p ≠ [])
    (h : containsSeq p l = true) : l ≠ [] := by
  intro hl
  subst hl
  exact hp (List.infix_nil.mp (containsSeq_iff.mp h))

/-- C5 (counterexample).  A code text that defines a named export of the
component (`export function Foo`) and has no default export, yet the
default-export step appends nothing: the step only reacts to
`export const <Name>`. -/
theorem c5_counterexample :
    containsSeq ("export function Foo".data)
      ("export function Foo() \x7b return null; \x7d".data) = true ∧
    containsSeq ("export default".data)
      ("export function Foo() \x7b return null; \x7d".data) = false ∧
    addDefaultExport ("Foo".data)
      ("export function Foo() \x7b return null; \x7d".data) =
      ("export function Foo() \x7b return null; \x7d".data) := by
  refine ⟨by decide, by decide, by decide⟩

/-- C5 (amended).  The default-export statement
`\n\nexport default <Name>;\n` is appended exactly when the code
contains the text `export const <Name>` and does not contain
`export default`; in particular nothing is appended when a default
export is already present, and nothing is appended when the
`export const` form is absent. -/
theorem c5_export_append (name code : List Char) :
    (containsSeq (("export const ".data) ++ name) code = true →
      containsSeq ("export default".data) code = false →
      addDefaultExport name code =
        code ++ ("\n\nexport default ".data) ++ name ++ (";\n".data)) ∧
    (containsSeq ("export default".data) code = true →
      addDefaultExport name code = code) ∧
    (containsSeq (("export const ".data) ++ name) code = false →
      addDefaultExport name code = code) := by
  refine ⟨?_, ?_, ?_⟩
  · intro h1 h2
    unfold addDefaultExport
    rw [h1, h2]
    rfl
  · intro h
    unfold addDefaultExport
    rw [h]
    simp
  · intro h
    unfold addDefaultExport
    rw [h]
    simp

theorem c5_export_append_witness :
    addDefaultExport ("Foo".data)
      ("export const Foo = () => null;".data) =
      ("export const Foo = () => null;\n\nexport default Foo;\n".data) ∧
    addDefaultExport ("Foo".data)
      ("const Foo = 1;\nexport default Foo;".data) =
      ("const Foo = 1;\nexport default Foo;".data) ∧
    addDefaultExport ("Foo".data) ("const x = 1;".data) = ("const x = 1;".data) := by
  refine ⟨?_, ?_, ?_⟩
  · have h := (c5_export_append ("Foo".data)
      ("export const Foo = () => null;".data)).1 (by decide) (by decide)
    exact h.trans (by decide)
  · exact (c5_export_append ("Foo".data)
      ("const Foo = 1;\nexport default Foo;".data)).2.1 (by decide)
  · exact (c5_export_append ("Foo".data) ("const x = 1;".data)).2.2 (by decide)

/-- C6 (counterexample).  Code that already contains a block comment
with the word `USAGE` (but not `USAGE:`) is not left unchanged: the
header-presence test of the source looks for the colon form, so a
header is prepended. -/
theorem c6_counterexample :
    containsSeq ("/*".data) ("/* USAGE */\nexport const Foo = 1;".data) = true ∧
    containsSeq ("USAGE".data) ("/* USAGE */\nexport const Foo = 1;".data) = true ∧
    addUsageHeader ("Foo".data) ("/* USAGE */\nexport const Foo = 1;".data) ≠
      ("/* USAGE */\nexport const Foo = 1;".data) := by
  refine ⟨by decide, by decide, by decide⟩

/-- C6 (amended).  Header injection is idempotent; code already carrying
a usage header — i.e. containing both `/*` and `USAGE:` — is left
unchanged, and code without one gets exactly one generated header
prepended. -/
theorem c6_header_idempotent (name code : List Char) :
    addUsageHeader name (addUsageHeader name code) = addUsageHeader name code ∧
    (hasUsageHeader code = true → addUsageHeader name code = code) ∧
    (hasUsageHeader code = false →
      addUsageHeader name code = usageHeaderFor name ++ code) := by
  have hdr1 : containsSeq ("/*".data) (usageHeaderFor name) = true := by
    rw [containsSeq_iff]
    show ("/*".data) <:+: ("/*\n * ".data) ++ _
    have : ("/*\n * ".data) = ("/*".data) ++ ("\n * ".data) := by decide
    rw [this, List.append_assoc]
    exact (List.prefix_append _ _).isInfix
  have hdr2 : containsSeq ("USAGE:".data) (usageHeaderFor name) = true := by
    unfold usageHeaderFor
    refine containsSeq_append_left _ ?_
    refine containsSeq_append_left _ ?_
    refine containsSeq_append_left _ ?_
    refine containsSeq_append_left _ ?_
    refine containsSeq_append_left _ ?_
    refine containsSeq_append_left _ ?_
    refine containsSeq_append_left _ ?_
    refine containsSeq_append_left _ ?_
    refine containsSeq_append_right _ ?_
    decide
  have hfull : hasUsageHeader (usageHeaderFor name ++ code) = true := by
    unfold hasUsageHeader
    rw [containsSeq_append_left _ hdr1, containsSeq_append_left _ hdr2]
    rfl
  refine ⟨?_, ?_, ?_⟩
  · by_cases h : hasUsageHeader code = true
    · simp [addUsageHeader, h]
    · have h' : hasUsageHeader code = false := by
        simpa using h
      simp [addUsageHeader, h', hfull]
  · intro h
    simp [addUsageHeader, h]
  · intro h
    simp [addUsageHeader, h]

theorem c6_header_idempotent_witness :
    hasUsageHeader ("/* USAGE: x */\ncode".data) = true ∧
    addUsageHeader ("Foo".data) ("/* USAGE: x */\ncode".data) =
      ("/* USAGE: x */\ncode".data) ∧
    hasUsageHeader ("plain code".data) = false ∧
    addUsageHeader ("Foo".data) ("plain code".data) =
      usageHeaderFor ("Foo".data) ++ ("plain code".data) := by
  exact ⟨by decide, (c6_header_idempotent ("Foo".data) _).2.1 (by decide),
    by decide, (c6_header_idempotent ("Foo".data) _).2.2 (by decide)⟩

/-- C3 (counterexample).  A cleaned response whose first fenced block in
text order carries the recognized tag `js` while a later block carries
`tsx`: the spec-side first-block extraction yields the `js` block's
body, but the parser extracts the later `tsx` block — the match is by
tag priority, not text order. -/
theorem c3_counterexample :
    firstFencedBlockSpec ("```js\nA\n```\n```tsx\nB\n```".data) =
      some ("A\n".data) ∧
    trimJS ("A\n".data) = ("A".data) ∧
    extractedCodeOf ("```js\nA\n```\n```tsx\nB\n```".data) = ("B".data) ∧
    ("B".data) ≠ ("A".data) := by
  refine ⟨by decide, by decide, by decide, by decide⟩

/-- C3 (amended).  The extracted code is the trimmed body of the fenced
block found by trying the recognized tags in the fixed priority order
tsx, typescript, jsx, js (each searched over the whole remaining text);
when no recognized block exists, the entire remaining text is taken. -/
theorem c3_code_extraction (cleaned : List Char) :
    (∀ c, codeMatchOf cleaned = some c → extractedCodeOf cleaned = trimJS c) ∧
    (codeMatchOf cleaned = none → extractedCodeOf cleaned = cleaned) ∧
    (∀ c, scanFirst (matchFenceAt "tsx") cleaned = some c →
      codeMatchOf cleaned = some c) ∧
    (scanFirst (matchFenceAt "tsx") cleaned = none →
      ∀ c, scanFirst (matchFenceAt "typescript") cleaned = some c →
        codeMatchOf cleaned = some c) ∧
    (scanFirst (matchFenceAt "tsx") cleaned = none →
      scanFirst (matchFenceAt "typescript") cleaned = none →
      ∀ c, scanFirst (matchFenceAt "jsx") cleaned = some c →
        codeMatchOf cleaned = some c) ∧
    (scanFirst (matchFenceAt "tsx") cleaned = none →
      scanFirst (matchFenceAt "typescript") cleaned = none →
      scanFirst (matchFenceAt "jsx") cleaned = none →
      codeMatchOf cleaned = scanFirst (matchFenceAt "js") cleaned) := by
  refine ⟨?_, ?_, ?_, ?_, ?_, ?_⟩
  · intro c hc
    simp [extractedCodeOf, hc]
  · intro hc
    simp [extractedCodeOf, hc]
  · intro c hc
    simp [codeMatchOf, hc]
  · intro h1 c hc
    simp [codeMatchOf, h1, hc]
  · intro h1 h2 c hc
    simp [codeMatchOf, h1, h2, hc]
  · intro h1 h2 h3
    simp [codeMatchOf, h1, h2, h3]

theorem c3_code_extraction_witness :
    extractedCodeOf ("intro\n```tsx\n const X = 1; \n```\noutro".data) =
      ("const X = 1;".data) ∧
    extractedCodeOf ("no fenced block at all".data) =
      ("no fenced block at all".data) := by
  constructor
  · have h := (c3_code_extraction ("intro\n```tsx\n const X = 1; \n```\noutro".data)).1
      (("const X = 1; \n".data)) (by decide)
    exact h.trans (by decide)
  · exact (c3_code_extraction ("no fenced block at all".data)).2.1 (by decide)

/-- C8.  Output-directory resolution: an explicit folder is used
(created when missing); otherwise the conventional paths
`components`, `src/components`, `app/components` under the workspace
root are probed in that fixed order and the first existing one is used;
otherwise the user's selection is used, and on a cancelled or empty
selection a `components` directory at the workspace root is used
(created when missing) with no further prompting. -/
theorem c8_dir_resolution (root : String) (outputFolder : Option String)
    (dirExists : String → Bool) (userSel : Option (List String)) :
    conventionalDirs root =
      [root ++ "/components", root ++ "/src/components",
       root ++ "/app/components"] ∧
    (∀ f, outputFolder = some f →
      resolveComponentsDir root outputFolder dirExists userSel =
        (f, if dirExists f then [] else [f])) ∧
    (outputFolder = none →
      ∀ d, (conventionalDirs root).find? dirExists = some d →
      resolveComponentsDir root outputFolder dirExists userSel = (d, [])) ∧
    (outputFolder = none → (conventionalDirs root).find? dirExists = none →
      (userSel = none ∨ userSel = some []) →
      resolveComponentsDir root outputFolder dirExists userSel =
        (root ++ "/components",
         if dirExists (root ++ "/components") then []
         else [root ++ "/components"])) ∧
    (outputFolder = none → (conventionalDirs root).find? dirExists = none →
      ∀ s rest, userSel = some (s :: rest) →
      resolveComponentsDir root outputFolder dirExists userSel = (s, [])) := by
  have hj : ∀ a b : String, pjoin a b = a ++ "/" ++ b := fun a b => rfl
  refine ⟨?_, ?_, ?_, ?_, ?_⟩
  · simp [conventionalDirs, pjoin, String.append_assoc]
  · intro f hf
    subst hf
    rfl
  · intro h1 d hd
    subst h1
    simp [resolveComponentsDir, hd]
  · intro h1 h2 h3
    subst h1
    rcases h3 with h3 | h3 <;> subst h3 <;>
      simp [resolveComponentsDir, h2, pjoin, String.append_assoc]
  · intro h1 h2 s rest hs
    subst h1
    subst hs
    simp [resolveComponentsDir, h2]

theorem c8_dir_resolution_witness :
    resolveComponentsDir "/w" (some "/out") (fun _ => false) none =
      ("/out", ["/out"]) ∧
    resolveComponentsDir "/w" none (fun d => d = "/w/src/components") none =
      ("/w/src/components", []) ∧
    resolveComponentsDir "/w" none (fun _ => false) (some []) =
      ("/w/components", ["/w/components"]) ∧
    resolveComponentsDir "/w" none (fun _ => false) (some ["/picked"]) =
      ("/picked", []) := by
  refine ⟨?_, ?_, ?_, ?_⟩
  · exact ((c8_dir_resolution "/w" (some "/out") (fun _ => false) none).2.1
      "/out" rfl).trans (by decide)
  · exact (c8_dir_resolution "/w" none (fun d => d = "/w/src/components")
      none).2.2.1 rfl "/w/src/components" (by decide)
  · exact ((c8_dir_resolution "/w" none (fun _ => false) (some [])).2.2.2.1
      rfl (by decide) (Or.inr rfl)).trans (by decide)
  · exact (c8_dir_resolution "/w" none (fun _ => false)
      (some ["/picked"])).2.2.2.2 rfl (by decide) "/picked" [] rfl

/-- C9 (counterexample).  For the props set
`{title: string; price: number}` the emitted alternative set overrides
no field at all: its body is exactly the spread of the default set plus
a placeholder comment, contradicting "at least one overridden field". -/
theorem c9_counterexample :
    altOverrideLines "Card"
      (generateMockDataFile "Card"
        "interface CardProps \x7b\n  title: string;\n  price: number;\n\x7d") =
      ["  // Add or override properties for the alternative version"] ∧
    (altOverrideLines "Card"
      (generateMockDataFile "Card"
        "interface CardProps \x7b\n  title: string;\n  price: number;\n\x7d")).any
      isOverrideLine = false := by
  refine ⟨by decide, by decide⟩

/-- C9 (amended).  For the props interface
`{title: string; price: number}` the generated mock-data file's default
set contains `"title": "Card Title"` and the numeric literal `99.99`
for `price`, and its alternative set is the default set spread with a
placeholder comment for overrides — no field is actually overridden. -/
theorem c9_mock_sets :
    containsSeq ("\"title\": \"Card Title\"".data)
      (generateMockDataFile "Card"
        "interface CardProps \x7b\n  title: string;\n  price: number;\n\x7d").data =
      true ∧
    containsSeq ("\"price\": 99.99".data)
      (generateMockDataFile "Card"
        "interface CardProps \x7b\n  title: string;\n  price: number;\n\x7d").data =
      true ∧
    containsSeq
      ("export const alternativeCardData: CardProps = \x7b\n  ...mockCardData,\n  // Add or override properties for the alternative version\n\x7d;".data)
      (generateMockDataFile "Card"
        "interface CardProps \x7b\n  title: string;\n  price: number;\n\x7d").data =
      true := by
  refine ⟨by decide, by decide, by decide⟩

theorem all_takeWhile_self {p : Char → Bool} {l : List Char} :
    (l.takeWhile p).all p = true := by
  induction l with
  | nil => rfl
  | cons c cs ih =>
    rw [List.takeWhile_cons]
    split
    · rename_i hc
      simp [hc, ih]
    · rfl

theorem matchCNNameAt_shape {l n : List Char} (h : matchCNNameAt l = some n) :
    ∃ c cs, n = c :: cs ∧ isUpperAZ c = true ∧ cs.all isAlnumJS = true := by
  unfold matchCNNameAt at h
  split at h
  · exact absurd h (by simp)
  · split at h
    · exact absurd h (by simp)
    · rename_i c cs hcs
      split at h
      · rename_i hc
        cases h
        exact ⟨c, cs.takeWhile isAlnumJS, rfl, hc, all_takeWhile_self⟩
      · exact absurd h (by simp)

theorem matchArticleRest_shape {l w : List Char} (h : matchArticleRest l = some w) :
    ∃ c cs, w = c :: cs ∧ isAsciiLetter c = true ∧ cs.all isAlnumJS = true := by
  unfold matchArticleRest at h
  split at h
  · exact absurd h (by simp)
  · split at h
    · split at h
      · exact absurd h (by simp)
      · rename_i d ds hds
        split at h
        · rename_i hd
          split at h
          · exact absurd h (by simp)
          · split at h
            · split at h
              · cases h
                exact ⟨d, ds.takeWhile isAlnumJS, rfl, hd, all_takeWhile_self⟩
              · exact absurd h (by simp)
            · exact absurd h (by simp)
        · exact absurd h (by simp)
    · exact absurd h (by simp)

theorem matchPromptAt_shape {l w : List Char} (h : matchPromptAt l = some w) :
    ∃ c cs, w = c :: cs ∧ isAsciiLetter c = true ∧ cs.all isAlnumJS = true := by
  unfold matchPromptAt at h
  split at h
  · exact absurd h (by simp)
  · split at h
    · exact absurd h (by simp)
    · split at h
      · split at h
        · split at h
          · rename_i hrest
            cases h
            exact matchArticleRest_shape hrest
          · split at h
            · exact matchArticleRest_shape h
            · exact absurd h (by simp)
        · exact absurd h (by simp)
      · exact absurd h (by simp)

theorem addUsageHeader_ne_nil (name code : List Char) :
    addUsageHeader name code ≠ [] := by
  unfold addUsageHeader
  split
  · rename_i h
    have h1 : containsSeq ("/*".data) code = true := by
      have h2 := h
      simp only [hasUsageHeader, Bool.and_eq_true] at h2
      exact h2.1
    exact containsSeq_ne_nil (by decide) h1
  · intro heq
    obtain ⟨h1, -⟩ := List.append_eq_nil.mp heq
    unfold usageHeaderFor at h1
    obtain ⟨h2, -⟩ := List.append_eq_nil.mp h1
    obtain ⟨h3, -⟩ := List.append_eq_nil.mp h2
    obtain ⟨h4, -⟩ := List.append_eq_nil.mp h3
    obtain ⟨h5, -⟩ := List.append_eq_nil.mp h4
    obtain ⟨h6, -⟩ := List.append_eq_nil.mp h5
    obtain ⟨h7, -⟩ := List.append_eq_nil.mp h6
    obtain ⟨h8, -⟩ := List.append_eq_nil.mp h7
    obtain ⟨h9, -⟩ := List.append_eq_nil.mp h8
    obtain ⟨h10, -⟩ := List.append_eq_nil.mp h9
    obtain ⟨h11, -⟩ := List.append_eq_nil.mp h10
    exact absurd h11 (by decide)

theorem parsedNameOf_pascal (r d : List Char) :
    isPascalToken (String.mk (parsedNameOf r d)) = true := by
  unfold parsedNameOf
  split
  · rename_i n hn
    obtain ⟨s, -, hs⟩ := scanFirst_eq_some hn
    obtain ⟨c, cs, rfl, hc, hcs⟩ := matchCNNameAt_shape hs
    simp [isPascalToken, hc, hcs]
  · split
    · rename_i w hw
      obtain ⟨s, -, hs⟩ := scanFirst_eq_some hw
      obtain ⟨c, cs, rfl, hc, hcs⟩ := matchPromptAt_shape hs
      simp [isPascalToken, pascalizeJS, upperAscii_upper hc, hcs]
    · decide

/-- C7 (counterexample).  A response with a `COMPONENT_NAME` line and no
fenced block: the returned componentCode is not the full raw response —
the fallback text is the response with the `COMPONENT_NAME` line
stripped, further augmented with the generated header. -/
theorem c7_counterexample :
    codeMatchOf (cleanedTextOf ("COMPONENT_NAME: Foo\nhello".data)) = none ∧
    (parseResponse "COMPONENT_NAME: Foo\nhello" "").componentCode ≠
      (parseResponse "COMPONENT_NAME: Foo\nhello" "").fullResponse := by
  refine ⟨by decide, by decide⟩

/-- C7 (amended).  Parsing is total and never raises: for every response
and description it returns a componentName that is a non-empty
PascalCase token `[A-Z][a-zA-Z0-9]*` and a non-empty componentCode; the
extraction stage falls back to the entire remaining (cleaned) text when
no fenced block is found. -/
theorem c7_parser_invariants (r d : String) :
    isPascalToken (parseResponse r d).componentName = true ∧
    (parseResponse r d).componentCode ≠ "" ∧
    (codeMatchOf (cleanedTextOf r.data) = none →
      extractedCodeOf (cleanedTextOf r.data) = cleanedTextOf r.data) := by
  refine ⟨parsedNameOf_pascal r.data d.data, ?_, ?_⟩
  · intro h
    have h2 := congrArg String.data h
    exact addUsageHeader_ne_nil _ _ h2
  · intro h
    simp [extractedCodeOf, h]

theorem c7_parser_invariants_witness :
    isPascalToken (parseResponse "plain answer" "no phrase").componentName =
      true ∧
    (parseResponse "plain answer" "no phrase").componentCode ≠ "" ∧
    codeMatchOf (cleanedTextOf ("plain answer".data)) = none ∧
    extractedCodeOf (cleanedTextOf ("plain answer".data)) =
      cleanedTextOf ("plain answer".data) := by
  refine ⟨(c7_parser_invariants "plain answer" "no phrase").1,
    (c7_parser_invariants "plain answer" "no phrase").2.1, by decide,
    (c7_parser_invariants "plain answer" "no phrase").2.2 (by decide)⟩


theorem containsSeq_self {p : List Char} : containsSeq p p = true :=
  containsSeq_iff.mpr (List.infix_refl p)

/-- C4.  When the extracted code has no recognizable implementation of
the component (none of the six markers) but does contain its props
interface, the synthesis step appends the placeholder implementation:
the result keeps the whole original text (hence the original
interface), destructures exactly the prop names extracted from the
interface body, renders `title`, `description`, `ctaText` and
`ctaLink`, and carries an appended default export of the component
name. -/
theorem c4_placeholder_synthesis (name code content : List Char)
    (h1 : hasImplMarker name code = false)
    (h2 : containsSeq ((("interface ".data) ++ name) ++ ("Props".data)) code = true)
    (h3 : scanFirst (matchIfaceGenAt name) code = some content) :
    ensureImplementation name code =
      code ++ placeholderImpl name (propsStrOf content) ∧
    (∀ iface, containsSeq iface code = true →
      containsSeq iface (ensureImplementation name code) = true) ∧
    containsSeq (phExportDefault ++ name ++ phEnd)
      (ensureImplementation name code) = true ∧
    containsSeq (phDestructOpen ++ propsStrOf content ++ phDestructClose)
      (ensureImplementation name code) = true ∧
    containsSeq ("\x7btitle && <h2".data) (ensureImplementation name code) =
      true ∧
    containsSeq ("\x7bdescription && <p".data)
      (ensureImplementation name code) = true ∧
    containsSeq ("\x7bctaText && ctaLink".data)
      (ensureImplementation name code) = true := by
  have heq : ensureImplementation name code =
      code ++ placeholderImpl name (propsStrOf content) := by
    unfold ensureImplementation
    rw [h1, h2, h3]
    simp
  have hbody : ∀ p : List Char, containsSeq p phBody = true →
      containsSeq p (ensureImplementation name code) = true := by
    intro p hp
    rw [heq, containsSeq_iff]
    refine (containsSeq_iff.mp hp).trans ?_
    refine List.IsInfix.trans ?_ (List.suffix_append code _).isInfix
    unfold placeholderImpl
    exact ((List.suffix_append _ phBody).isInfix).trans
      (List.prefix_append _ _).isInfix
  refine ⟨heq, ?_, ?_, ?_, hbody _ (by decide), hbody _ (by decide),
    hbody _ (by decide)⟩
  · intro iface hi
    rw [heq]
    exact containsSeq_append_left _ hi
  · rw [heq]
    refine containsSeq_append_right _ ?_
    unfold placeholderImpl
    exact containsSeq_append_right _ containsSeq_self
  · rw [heq]
    refine containsSeq_append_right _ ?_
    unfold placeholderImpl
    refine containsSeq_append_left _ ?_
    refine containsSeq_append_left _ ?_
    exact containsSeq_append_right _ containsSeq_self

theorem c4_placeholder_synthesis_witness :
    hasImplMarker ("Card".data)
      ("interface CardProps \x7b\n  title: string;\n  description: string;\n  ctaText: string;\n  ctaLink: string;\n\x7d".data) =
      false ∧
    scanFirst (matchIfaceGenAt ("Card".data))
      ("interface CardProps \x7b\n  title: string;\n  description: string;\n  ctaText: string;\n  ctaLink: string;\n\x7d".data) =
      some ("\n  title: string;\n  description: string;\n  ctaText: string;\n  ctaLink: string;\n".data) ∧
    propsStrOf
      ("\n  title: string;\n  description: string;\n  ctaText: string;\n  ctaLink: string;\n".data) =
      ("title,\n  description,\n  ctaText,\n  ctaLink".data) ∧
    ensureImplementation ("Card".data)
      ("interface CardProps \x7b\n  title: string;\n  description: string;\n  ctaText: string;\n  ctaLink: string;\n\x7d".data) =
      ("interface CardProps \x7b\n  title: string;\n  description: string;\n  ctaText: string;\n  ctaLink: string;\n\x7d".data) ++
        placeholderImpl ("Card".data)
          (propsStrOf ("\n  title: string;\n  description: string;\n  ctaText: string;\n  ctaLink: string;\n".data)) ∧
    containsSeq (phExportDefault ++ ("Card".data) ++ phEnd)
      (ensureImplementation ("Card".data)
        ("interface CardProps \x7b\n  title: string;\n  description: string;\n  ctaText: string;\n  ctaLink: string;\n\x7d".data)) =
      true := by
  refine ⟨by decide, by decide, by decide,
    (c4_placeholder_synthesis ("Card".data) _ _ (by decide) (by decide)
      (by decide)).1,
    (c4_placeholder_synthesis ("Card".data) _
      ("\n  title: string;\n  description: string;\n  ctaText: string;\n  ctaLink: string;\n".data)
      (by decide) (by decide) (by decide)).2.2.1⟩

theorem scanFirst_pos {f : List Char → Option α} {l : List Char} {v : α}
    (h : f l = some v) (hl : l ≠ []) : scanFirst f l = some v := by
  cases l with
  | nil => exact absurd rfl hl
  | cons c cs => simp [scanFirst, h]

theorem scanFirst_skip {f : List Char → Option α} {pre l : List Char}
    (hpre : ∀ s ∈ pre.tails, s ≠ [] → f (s ++ l) = none) :
    scanFirst f (pre ++ l) = scanFirst f l := by
  induction pre with
  | nil => rfl
  | cons c cs ih =>
    rw [List.cons_append]
    simp only [scanFirst]
    rw [show (c :: (cs ++ l)) = (c :: cs) ++ l from rfl,
      hpre (c :: cs) ((List.mem_tails _ _).mpr (List.suffix_refl _)) (by simp)]
    exact ih (fun s hs hne =>
      hpre s (by rw [List.tails_cons]; exact List.mem_cons_of_mem _ hs) hne)

theorem replaceFirstBy_pos {f : List Char → Option (List Char)}
    {l r : List Char} (h : f l = some r) (hl : l ≠ []) :
    replaceFirstBy f l = r := by
  cases l with
  | nil => exact absurd rfl hl
  | cons c cs => simp [replaceFirstBy, h]

theorem replaceFirstBy_skip {f : List Char → Option (List Char)}
    {pre l : List Char}
    (hpre : ∀ s ∈ pre.tails, s ≠ [] → f (s ++ l) = none) :
    replaceFirstBy f (pre ++ l) = pre ++ replaceFirstBy f l := by
  induction pre with
  | nil => rfl
  | cons c cs ih =>
    rw [List.cons_append]
    simp only [replaceFirstBy]
    rw [show (c :: (cs ++ l)) = (c :: cs) ++ l from rfl,
      hpre (c :: cs) ((List.mem_tails _ _).mpr (List.suffix_refl _)) (by simp)]
    simp only [List.cons_append]
    rw [ih (fun s hs hne =>
      hpre s (by rw [List.tails_cons]; exact List.mem_cons_of_mem _ hs) hne)]

/-- C2 (counterexample).  A response containing the well-formed line
`COMPONENT_NAME: Bar` whose parsed componentName is nevertheless `Foo`:
the name regex matches the earlier, malformed `COMPONENT_NAME: Foo!`
occurrence first. -/
theorem c2_counterexample :
    containsSeq ("COMPONENT_NAME: Bar\n".data)
      ("COMPONENT_NAME: Foo!\nCOMPONENT_NAME: Bar\n".data) = true ∧
    (parseResponse "COMPONENT_NAME: Foo!\nCOMPONENT_NAME: Bar\n"
      "").componentName = "Foo" ∧
    (parseResponse "COMPONENT_NAME: Foo!\nCOMPONENT_NAME: Bar\n"
      "").componentName ≠ "Bar" := by
  refine ⟨by decide, by decide, by decide⟩

/-- C2 (amended).  When the first occurrence of `COMPONENT_NAME:` in
the response begins a well-formed token line — the literal, whitespace,
a PascalCase token, then a whitespace run containing a newline — the
parsed componentName is exactly that token, and the strip step deletes
the occurrence through the last newline of that whitespace run: the
whole line, plus the newlines of any blank lines immediately following
it (trailing non-newline whitespace after that last newline survives).
The cleaned text — the input of all further processing — is the
response with exactly that segment removed.  The whitespace run is
given in the canonical decomposition `sp2 ++ '\n' :: tail2` with no
newline in `tail2` and no whitespace starting `rest`. -/
theorem c2_name_line_strip (pre sp fs sp2 tail2 rest : List Char) (f : Char)
    (hf : isUpperAZ f = true)
    (hfs : fs.all isAlnumJS = true)
    (hsp : sp.all isSpaceJS = true)
    (hsp2 : sp2.all isSpaceJS = true)
    (htail2 : tail2.all (fun c => isSpaceJS c && !(c = '\n')) = true)
    (hrest : ∀ c, rest.head? = some c → isSpaceJS c = false)
    (hpre : ∀ s ∈ pre.tails, s ≠ [] →
      stripLit ("COMPONENT_NAME:".data)
        (s ++ (("COMPONENT_NAME:".data) ++
          (sp ++ ((f :: fs) ++ (sp2 ++ ('\n' :: (tail2 ++ rest))))))) = none) :
    componentNameMatch
      (pre ++ (("COMPONENT_NAME:".data) ++
        (sp ++ ((f :: fs) ++ (sp2 ++ ('\n' :: (tail2 ++ rest))))))) =
      some (f :: fs) ∧
    cleanedTextOf
      (pre ++ (("COMPONENT_NAME:".data) ++
        (sp ++ ((f :: fs) ++ (sp2 ++ ('\n' :: (tail2 ++ rest))))))) =
      pre ++ (tail2 ++ rest) := by
  have hsp' : ∀ c ∈ sp, isSpaceJS c = true := List.all_eq_true.mp hsp
  have hfs' : ∀ c ∈ fs, isAlnumJS c = true := List.all_eq_true.mp hfs
  have hsp2' : ∀ c ∈ sp2, isSpaceJS c = true := List.all_eq_true.mp hsp2
  have htail2' : ∀ c ∈ tail2, isSpaceJS c = true ∧ c ≠ '\n' := by
    intro c hc
    have := List.all_eq_true.mp htail2 c hc
    simp only [Bool.and_eq_true, Bool.not_eq_true', decide_eq_false_iff_not] at this
    exact this
  have hLne : (("COMPONENT_NAME:".data) ++
      (sp ++ ((f :: fs) ++ (sp2 ++ ('\n' :: (tail2 ++ rest)))))) ≠ [] := by
    simp
  have htake : List.takeWhile isAlnumJS
      (fs ++ (sp2 ++ ('\n' :: (tail2 ++ rest)))) = fs := by
    rw [takeWhile_append_all hfs']
    cases sp2 with
    | nil =>
      rw [List.nil_append, takeWhile_cons_neg (by decide)]
      simp
    | cons c2 cs2 =>
      rw [List.cons_append, takeWhile_cons_neg
        (alnum_false_of_space (hsp2' c2 (List.mem_cons_self _ _)))]
      simp
  have hdropfoo : List.dropWhile isSpaceJS
      (sp ++ ((f :: fs) ++ (sp2 ++ ('\n' :: (tail2 ++ rest))))) =
      f :: (fs ++ (sp2 ++ ('\n' :: (tail2 ++ rest)))) := by
    rw [dropWhile_append_all hsp', List.cons_append,
      dropWhile_cons_neg (space_false_of_upper hf)]
  have hA : matchCNNameAt (("COMPONENT_NAME:".data) ++
      (sp ++ ((f :: fs) ++ (sp2 ++ ('\n' :: (tail2 ++ rest)))))) =
      some (f :: fs) := by
    unfold matchCNNameAt
    rw [stripLit_self_append]
    simp only [hdropfoo, hf, if_true, htake]
  have hdropalnum : List.dropWhile isAlnumJS
      (fs ++ (sp2 ++ ('\n' :: (tail2 ++ rest)))) =
      sp2 ++ ('\n' :: (tail2 ++ rest)) := by
    rw [dropWhile_append_all hfs']
    cases sp2 with
    | nil => rw [List.nil_append, dropWhile_cons_neg (by decide)]
    | cons c2 cs2 =>
      rw [List.cons_append, dropWhile_cons_neg
        (alnum_false_of_space (hsp2' c2 (List.mem_cons_self _ _)))]
  have htkrest : List.takeWhile isSpaceJS rest = [] := by
    cases rest with
    | nil => rfl
    | cons c cs => exact takeWhile_cons_neg (hrest c rfl)
  have htk2 : List.takeWhile isSpaceJS (tail2 ++ rest) = tail2 := by
    rw [takeWhile_append_all (fun c hc => (htail2' c hc).1), htkrest,
      List.append_nil]
  have hw : List.takeWhile isSpaceJS (sp2 ++ ('\n' :: (tail2 ++ rest))) =
      sp2 ++ ('\n' :: tail2) := by
    rw [takeWhile_append_all hsp2', List.takeWhile_cons, if_pos (by decide),
      htk2]
  have ht : (sp2 ++ ('\n' :: tail2)).reverse.takeWhile (fun d => !(d = '\n')) =
      tail2.reverse := by
    rw [List.reverse_append, List.reverse_cons,
      show (tail2.reverse ++ ['\n']) ++ sp2.reverse =
        tail2.reverse ++ ('\n' :: sp2.reverse) by simp]
    rw [takeWhile_append_all (fun c hc => by
      simp only [Bool.not_eq_true', decide_eq_false_iff_not]
      exact (htail2' c (List.mem_reverse.mp hc)).2),
      takeWhile_cons_neg (by decide), List.append_nil]
  have hB : matchCNLineAt (("COMPONENT_NAME:".data) ++
      (sp ++ ((f :: fs) ++ (sp2 ++ ('\n' :: (tail2 ++ rest)))))) =
      some (tail2 ++ rest) := by
    unfold matchCNLineAt
    rw [stripLit_self_append]
    simp only [hdropfoo, hf, if_true, hdropalnum, hw, ht]
    rw [if_neg (by
      simp only [List.length_reverse, List.length_append, List.length_cons]
      omega)]
    congr 1
    simp only [List.length_reverse, List.length_append, List.length_cons]
    rw [show sp2.length + (tail2.length + 1) - tail2.length =
      sp2.length + 1 from by omega]
    rw [← List.drop_drop, List.drop_left]
    rfl
  have hnamepre : ∀ s ∈ pre.tails, s ≠ [] →
      matchCNNameAt (s ++ (("COMPONENT_NAME:".data) ++
        (sp ++ ((f :: fs) ++ (sp2 ++ ('\n' :: (tail2 ++ rest))))))) = none := by
    intro s hs hne
    unfold matchCNNameAt
    rw [hpre s hs hne]
  have hlinepre : ∀ s ∈ pre.tails, s ≠ [] →
      matchCNLineAt (s ++ (("COMPONENT_NAME:".data) ++
        (sp ++ ((f :: fs) ++ (sp2 ++ ('\n' :: (tail2 ++ rest))))))) = none := by
    intro s hs hne
    unfold matchCNLineAt
    rw [hpre s hs hne]
  constructor
  · show scanFirst matchCNNameAt _ = _
    rw [scanFirst_skip hnamepre]
    exact scanFirst_pos hA hLne
  · show replaceFirstBy matchCNLineAt _ = _
    rw [replaceFirstBy_skip hlinepre]
    rw [replaceFirstBy_pos hB hLne]

theorem c2_name_line_strip_witness :
    componentNameMatch ("COMPONENT_NAME: Foo\n\ncode".data) =
      some ("Foo".data) ∧
    cleanedTextOf ("COMPONENT_NAME: Foo\n\ncode".data) = ("code".data) ∧
    componentNameMatch ("Intro.\nCOMPONENT_NAME: Foo \n\n  code".data) =
      some ("Foo".data) ∧
    cleanedTextOf ("Intro.\nCOMPONENT_NAME: Foo \n\n  code".data) =
      ("Intro.\n  code".data) := by
  have h1 := c2_name_line_strip [] (" ".data) ("oo".data) ("\n".data) []
    ("code".data) 'F' (by decide) (by decide) (by decide) (by decide)
    (by decide) (by decide) (by decide)
  have h2 := c2_name_line_strip ("Intro.\n".data) (" ".data) ("oo".data)
    (" \n".data) ("  ".data) ("code".data) 'F' (by decide) (by decide)
    (by decide) (by decide) (by decide) (by decide) (by decide)
  exact ⟨h1.1.trans (by decide), h1.2.trans (by decide),
    h2.1.trans (by decide), h2.2.trans (by decide)⟩

theorem splitOnNL_no_nl {x : List Char} (hx : '\n' ∉ x) : splitOnNL x = [x] := by
  induction x with
  | nil => rfl
  | cons c cs ih =>
    have hc : ¬(c = '\n') := fun h => hx (h ▸ List.mem_cons_self c cs)
    have hcs : '\n' ∉ cs := fun h => hx (List.mem_cons_of_mem c h)
    simp only [splitOnNL, if_neg hc, ih hcs]

theorem splitOnNL_append_nl {x l : List Char} (hx : '\n' ∉ x) :
    splitOnNL (x ++ '\n' :: l) = x :: splitOnNL l := by
  induction x with
  | nil => simp [splitOnNL]
  | cons c cs ih =>
    have hc : ¬(c = '\n') := fun h => hx (h ▸ List.mem_cons_self c cs)
    have hcs : '\n' ∉ cs := fun h => hx (List.mem_cons_of_mem c h)
    rw [List.cons_append]
    simp only [splitOnNL, if_neg hc, ih hcs]

theorem splitOnNL_joinNL {xs : List (List Char)} (hxs : ∀ x ∈ xs, '\n' ∉ x)
    (hne : xs ≠ []) : splitOnNL (joinNL xs) = xs := by
  induction xs with
  | nil => exact absurd rfl hne
  | cons x rest ih =>
    cases rest with
    | nil => exact splitOnNL_no_nl (hxs x (List.mem_cons_self _ _))
    | cons y t =>
      rw [show joinNL (x :: y :: t) = x ++ '\n' :: joinNL (y :: t) from rfl,
        splitOnNL_append_nl (hxs x (List.mem_cons_self _ _))]
      rw [ih (fun z hz => hxs z (List.mem_cons_of_mem x hz)) (by simp)]

theorem plineOK_fields {p : PLine} (h : plineOK p = true) :
    (∀ c ∈ p.ws, isSpaceJS c = true ∧ c ≠ '\n') ∧
    p.nm ≠ [] ∧ (∀ c ∈ p.nm, isWordJS c = true) ∧
    (∀ c, p.tl.head? = some c → isWordJS c = false ∧ c ≠ '?') ∧
    '\n' ∉ p.tl := by
  simp only [plineOK, Bool.and_eq_true] at h
  obtain ⟨⟨⟨⟨hws, hnm⟩, hw⟩, hh⟩, hnl⟩ := h
  refine ⟨?_, ?_, ?_, ?_, ?_⟩
  · intro c hc
    have := List.all_eq_true.mp hws c hc
    simp only [Bool.and_eq_true, Bool.not_eq_true', decide_eq_false_iff_not] at this
    exact this
  · intro he
    rw [he] at hnm
    simp at hnm
  · exact List.all_eq_true.mp hw
  · intro c hc
    rw [hc] at hh
    simp only [Bool.and_eq_true, Bool.not_eq_true', decide_eq_false_iff_not,
      Bool.not_eq_true] at hh
    exact ⟨hh.1, hh.2⟩
  · intro hmem
    rw [Bool.not_eq_true'] at hnl
    have : p.tl.any (fun c => c = '\n') = true :=
      List.any_eq_true.mpr ⟨'\n', hmem, by simp⟩
    rw [hnl] at this
    exact Bool.false_ne_true this

theorem renderPLine_no_nl {p : PLine} (h : plineOK p = true) :
    '\n' ∉ renderPLine p := by
  obtain ⟨hws, -, hw, -, hnl⟩ := plineOK_fields h
  intro hmem
  unfold renderPLine at hmem
  rcases List.mem_append.mp hmem with hmem | hmem
  · rcases List.mem_append.mp hmem with hmem | hmem
    · rcases List.mem_append.mp hmem with hmem | hmem
      · exact (hws _ hmem).2 rfl
      · have := hw _ hmem
        rw [show isWordJS '\n' = false from rfl] at this
        exact Bool.false_ne_true this
    · split at hmem
      · simp at hmem
      · simp at hmem
  · exact hnl hmem

theorem linePropParse_render {p : PLine} (hok : plineOK p = true) (b : Bool) :
    linePropParse (renderPLine { p with opt := b }) =
      some (p.nm, linePropParse.lineTypeOf p.tl) := by
  obtain ⟨hws, hnm, hw, hh, -⟩ := plineOK_fields hok
  have hws' : ∀ c ∈ p.ws, isSpaceJS c = true := fun c hc => (hws c hc).1
  obtain ⟨n0, nrest, hn⟩ : ∃ n0 nrest, p.nm = n0 :: nrest := by
    cases hnmv : p.nm with
    | nil => exact absurd hnmv hnm
    | cons a l => exact ⟨a, l, rfl⟩
  have htailnw : List.takeWhile isWordJS ((if b then ['?'] else []) ++ p.tl) = [] := by
    cases b with
    | true => exact takeWhile_cons_neg (by decide)
    | false =>
      rw [if_neg (by simp), List.nil_append]
      cases htl : p.tl with
      | nil => rfl
      | cons c t => exact takeWhile_cons_neg ((hh c (by rw [htl]; rfl)).1)
  have hdrop1 : List.dropWhile isSpaceJS (renderPLine { p with opt := b }) =
      p.nm ++ ((if b then ['?'] else []) ++ p.tl) := by
    unfold renderPLine
    simp only [List.append_assoc]
    rw [dropWhile_append_all hws']
    rw [hn, List.cons_append,
      dropWhile_cons_neg (space_false_of_word (hw n0 (by rw [hn]; exact List.mem_cons_self _ _))),
      ← List.cons_append]
  have hrun : List.takeWhile isWordJS
      (p.nm ++ ((if b then ['?'] else []) ++ p.tl)) = p.nm := by
    rw [takeWhile_append_all hw, htailnw, List.append_nil]
  have hdroprun : (p.nm ++ ((if b then ['?'] else []) ++ p.tl)).drop p.nm.length =
      (if b then ['?'] else []) ++ p.tl := List.drop_left _ _
  have hne : (List.takeWhile isWordJS
      (p.nm ++ ((if b then ['?'] else []) ++ p.tl))).isEmpty = false := by
    rw [hrun, hn]
    rfl
  have hr3 : (if ((if b then ['?'] else []) ++ p.tl).head? = some '?'
      then ((if b then ['?'] else []) ++ p.tl).tail
      else ((if b then ['?'] else []) ++ p.tl)) = p.tl := by
    cases b with
    | true => simp
    | false =>
      simp only [Bool.false_eq_true, if_false, List.nil_append]
      cases htl : p.tl with
      | nil => simp
      | cons c t =>
        rw [if_neg]
        simp only [List.head?_cons, Option.some.injEq]
        exact (hh c (by rw [htl]; rfl)).2
  unfold linePropParse
  rw [hdrop1]
  simp only [hrun, hdroprun, hne, Bool.false_eq_true, if_false, hr3]
  rw [hn]
  simp

theorem containsSeq_append_cons {pat x y : List Char} {c : Char} (hc : c ∉ pat) :
    containsSeq pat (x ++ c :: y) =
      (containsSeq pat x || containsSeq pat y) := by
  cases hxy : (containsSeq pat x || containsSeq pat y) with
  | true =>
    cases h1 : containsSeq pat x with
    | true =>
      exact containsSeq_iff.mpr
        ((infix_append_cons_iff hc).mpr (Or.inl (containsSeq_iff.mp h1)))
    | false =>
      rw [h1, Bool.false_or] at hxy
      exact containsSeq_iff.mpr
        ((infix_append_cons_iff hc).mpr (Or.inr (containsSeq_iff.mp hxy)))
  | false =>
    cases hl : containsSeq pat (x ++ c :: y) with
    | false => rfl
    | true =>
      exfalso
      rcases (infix_append_cons_iff hc).mp (containsSeq_iff.mp hl) with h | h
      · rw [containsSeq_iff.mpr h] at hxy
        simp at hxy
      · rw [containsSeq_iff.mpr h] at hxy
        simp at hxy

theorem theme_render_eq (p : PLine) (hok : plineOK p = true) (b : Bool) :
    containsSeq ("theme".data) (renderPLine { p with opt := b }) =
      (containsSeq ("theme".data) (p.ws ++ p.nm) ||
        containsSeq ("theme".data) p.tl) := by
  obtain ⟨-, -, -, hh, -⟩ := plineOK_fields hok
  unfold renderPLine
  cases b with
  | true =>
    rw [show ((p.ws ++ p.nm) ++ (if (true : Bool) then ['?'] else [])) ++ p.tl =
      (p.ws ++ p.nm) ++ '?' :: p.tl by simp]
    exact containsSeq_append_cons (by decide)
  | false =>
    simp only [Bool.false_eq_true, if_false, List.append_nil]
    cases htl : p.tl with
    | nil =>
      rw [List.append_nil]
      rw [show containsSeq ("theme".data) ([] : List Char) = false from by decide]
      simp
    | cons c t =>
      have hcmem : c ∉ ("theme".data) := by
        intro hmem
        have hcw : isWordJS c = false := (hh c (by rw [htl]; rfl)).1
        fin_cases hmem <;> exact absurd hcw (by decide)
      rw [containsSeq_append_cons hcmem]
      have hct : containsSeq ("theme".data) (c :: t) =
          containsSeq ("theme".data) t := by
        rw [show (c :: t : List Char) = [] ++ c :: t from rfl,
          containsSeq_append_cons hcmem,
          show containsSeq ("theme".data) ([] : List Char) = false from by decide]
        simp
      rw [hct]

theorem plineOK_sameButOpt {p q : PLine} (h : sameButOpt p q) :
    plineOK q = plineOK p := by
  obtain ⟨h1, h2, h3⟩ := h
  unfold plineOK
  rw [h1, h2, h3]

theorem forall₂_parse {ps qs : List PLine} (h : List.Forall₂ sameButOpt ps qs) :
    (∀ p ∈ ps, plineOK p = true) →
    List.Forall₂ (fun a b => linePropParse a = linePropParse b)
      (ps.map renderPLine) (qs.map renderPLine) := by
  induction h with
  | nil =>
    intro _
    exact List.Forall₂.nil
  | cons ha ht ih =>
    rename_i p q ps' qs'
    intro hok
    refine List.Forall₂.cons ?_ (ih (fun r hr => hok r (List.mem_cons_of_mem _ hr)))
    have hpok := hok p (List.mem_cons_self _ _)
    have hqok : plineOK q = true := (plineOK_sameButOpt ha).trans hpok
    have h1 := linePropParse_render hpok p.opt
    have h2 := linePropParse_render hqok q.opt
    rw [show ({ p with opt := p.opt } : PLine) = p from rfl] at h1
    rw [show ({ q with opt := q.opt } : PLine) = q from rfl] at h2
    rw [h1, h2]
    obtain ⟨-, h2', h3'⟩ := ha
    rw [h2', h3']

theorem forall₂_theme {ps qs : List PLine} (h : List.Forall₂ sameButOpt ps qs) :
    (∀ p ∈ ps, plineOK p = true) →
    List.Forall₂ (fun a b => containsSeq ("theme".data) a =
      containsSeq ("theme".data) b) (ps.map renderPLine) (qs.map renderPLine) := by
  induction h with
  | nil =>
    intro _
    exact List.Forall₂.nil
  | cons ha ht ih =>
    rename_i p q ps' qs'
    intro hok
    refine List.Forall₂.cons ?_ (ih (fun r hr => hok r (List.mem_cons_of_mem _ hr)))
    have hpok := hok p (List.mem_cons_self _ _)
    have hqok : plineOK q = true := (plineOK_sameButOpt ha).trans hpok
    have h1 := theme_render_eq p hpok p.opt
    have h2 := theme_render_eq q hqok q.opt
    rw [show ({ p with opt := p.opt } : PLine) = p from rfl] at h1
    rw [show ({ q with opt := q.opt } : PLine) = q from rfl] at h2
    rw [h1, h2]
    obtain ⟨h1', h2', h3'⟩ := ha
    rw [h1', h2', h3']

theorem theme_joinNL_congr {ls1 ls2 : List (List Char)}
    (h : List.Forall₂ (fun a b => containsSeq ("theme".data) a =
      containsSeq ("theme".data) b) ls1 ls2) :
    containsSeq ("theme".data) (joinNL ls1) =
      containsSeq ("theme".data) (joinNL ls2) := by
  induction h with
  | nil => rfl
  | cons ha ht ih =>
    rename_i a b l1 l2
    cases ht with
    | nil => exact ha
    | cons hb ht2 =>
      rename_i a2 b2 t1 t2
      show containsSeq _ (a ++ '\n' :: joinNL (a2 :: t1)) =
        containsSeq _ (b ++ '\n' :: joinNL (b2 :: t2))
      rw [containsSeq_append_cons (by decide),
        containsSeq_append_cons (by decide), ha]
      rw [show containsSeq ("theme".data) (joinNL (a2 :: t1)) =
        containsSeq ("theme".data) (joinNL (b2 :: t2)) from ih]

theorem mockStep_congr (name : List Char) (es : List (String × MVal))
    {a b : List Char} (h : linePropParse a = linePropParse b) :
    mockStep name es a = mockStep name es b := by
  unfold mockStep
  rw [h]

theorem mockEntriesOf_congr {name : List Char} {ls1 ls2 : List (List Char)}
    (h : List.Forall₂ (fun a b => linePropParse a = linePropParse b) ls1 ls2) :
    mockEntriesOf name ls1 = mockEntriesOf name ls2 := by
  unfold mockEntriesOf
  suffices hgen : ∀ es, ls1.foldl (mockStep name) es = ls2.foldl (mockStep name) es
    from hgen []
  induction h with
  | nil =>
    intro es
    rfl
  | cons ha ht ih =>
    intro es
    simp only [List.foldl_cons]
    rw [mockStep_congr name es ha]
    exact ih _

theorem forall₂_plineOK {ps qs : List PLine} (h : List.Forall₂ sameButOpt ps qs) :
    (∀ p ∈ ps, plineOK p = true) → ∀ q ∈ qs, plineOK q = true := by
  induction h with
  | nil =>
    intro _ q hq
    simp at hq
  | cons ha ht ih =>
    intro hok q hq
    rcases List.mem_cons.mp hq with rfl | hq2
    · rw [plineOK_sameButOpt ha]
      exact hok _ (List.mem_cons_self _ _)
    · exact ih (fun r hr => hok r (List.mem_cons_of_mem _ hr)) q hq2

/-- C10.  Mock-data generation is insensitive to the optional marker:
for any well-formed prop lines, toggling the `?` after any prop names
changes neither which props receive mock values nor the values — the
generated mock-data file is identical. -/
theorem c10_optional_insensitive (componentName propsInterface : List Char)
    (ps qs : List PLine)
    (hok : ∀ p ∈ ps, plineOK p = true)
    (hrel : List.Forall₂ sameButOpt ps qs) :
    mockFileFromContent componentName propsInterface (renderPLines ps) =
      mockFileFromContent componentName propsInterface (renderPLines qs) := by
  cases hrel with
  | nil => rfl
  | cons ha ht =>
    rename_i p q ps' qs'
    have hrel' : List.Forall₂ sameButOpt (p :: ps') (q :: qs') :=
      List.Forall₂.cons ha ht
    have hokq : ∀ r ∈ q :: qs', plineOK r = true := forall₂_plineOK hrel' hok
    have hsplit1 : splitOnNL (renderPLines (p :: ps')) =
        (p :: ps').map renderPLine := by
      unfold renderPLines
      refine splitOnNL_joinNL ?_ (by simp)
      intro x hx
      obtain ⟨r, hr, rfl⟩ := List.mem_map.mp hx
      exact renderPLine_no_nl (hok r hr)
    have hsplit2 : splitOnNL (renderPLines (q :: qs')) =
        (q :: qs').map renderPLine := by
      unfold renderPLines
      refine splitOnNL_joinNL ?_ (by simp)
      intro x hx
      obtain ⟨r, hr, rfl⟩ := List.mem_map.mp hx
      exact renderPLine_no_nl (hokq r hr)
    have hparse := forall₂_parse hrel' hok
    have htheme : containsSeq ("theme".data) (renderPLines (p :: ps')) =
        containsSeq ("theme".data) (renderPLines (q :: qs')) :=
      theme_joinNL_congr (forall₂_theme hrel' hok)
    have hwt : withTheme componentName (renderPLines (p :: ps')) =
        withTheme componentName (renderPLines (q :: qs')) := by
      funext es
      unfold withTheme
      rw [htheme]
    unfold mockFileFromContent
    rw [hsplit1, hsplit2, mockEntriesOf_congr hparse]
    unfold withSpecials
    rw [hwt]

theorem c10_optional_insensitive_witness :
    renderPLines
      [⟨("  ".data), ("title".data), true, (": string;".data)⟩,
       ⟨("  ".data), ("price".data), false, (": number;".data)⟩] =
      ("  title?: string;\n  price: number;".data) ∧
    renderPLines
      [⟨("  ".data), ("title".data), false, (": string;".data)⟩,
       ⟨("  ".data), ("price".data), true, (": number;".data)⟩] =
      ("  title: string;\n  price?: number;".data) ∧
    requiredPropsOf (splitOnNL ("  title?: string;\n  price: number;".data)) ≠
      requiredPropsOf (splitOnNL ("  title: string;\n  price?: number;".data)) ∧
    mockFileFromContent ("Card".data) ("CardProps".data)
      ("  title?: string;\n  price: number;".data) =
      mockFileFromContent ("Card".data) ("CardProps".data)
        ("  title: string;\n  price?: number;".data) := by
  refine ⟨by decide, by decide, by decide, ?_⟩
  have h := c10_optional_insensitive ("Card".data) ("CardProps".data)
    [⟨("  ".data), ("title".data), true, (": string;".data)⟩,
     ⟨("  ".data), ("price".data), false, (": number;".data)⟩]
    [⟨("  ".data), ("title".data), false, (": string;".data)⟩,
     ⟨("  ".data), ("price".data), true, (": number;".data)⟩]
    (by decide)
    (List.Forall₂.cons ⟨rfl, rfl, rfl⟩
      (List.Forall₂.cons ⟨rfl, rfl, rfl⟩ List.Forall₂.nil))
  exact h
